import Mathlib

/-!
Verification development for the analog-layout floorplanner with symmetry
constraints (ASF-B*-tree / HB*-tree placement engine with a simulated-annealing
driver).

The C++ sources are shallowly embedded:
* machine `int` values are modelled as `Int` (claims under study do not involve
  overflow; the `INT_MAX` sentinel used to seed contours is kept as the exact
  constant `2^31 - 1`);
* C++ `double` values (the symmetry-axis position and mirror arithmetic) are
  modelled as exact rationals `ℚ`; `static_cast<int>` on a `double` is modelled
  by truncation toward zero (`ratTrunc`);
* `std::map` iteration is modelled by association lists sorted by key where the
  iteration order matters, and by plain folds where it does not (sums, min/max);
* pointer-linked tree nodes are modelled in two complementary ways, both
  faithful to the source: a positional inductive tree for packing traversals,
  and name-indexed parent/left/right maps for the pointer-surgery operations
  (`swapNodes`), which the source performs through `setLeftChild` /
  `setRightChild` / `setParent` calls.

Sections follow the source layout: Contour, Module, ASF-B*-tree, HB*-tree,
solver driver and simulated annealing.  All definitions come first, then the
lemmas and the claim theorems.
-/

/-! ### Contour (src/src/utils/Contour.cpp)

A contour is its doubly-linked list of segments, modelled as `List Seg` in
list order (head = `head` pointer).  The cached `maxCoordinate` / `maxHeight`
fields are not part of the segment list and are modelled separately only where
a claim needs them (none does). -/

/-- A contour segment `(start, end, height)`; `end` is a Lean keyword, so the
field is named `stop`. Mirrors `ContourNode` of src/src/utils/Contour.hpp. -/
structure Seg where
  start : Int
  stop : Int
  height : Int
deriving DecidableEq, Repr

/-- `Contour::mergeNodes` (Contour.cpp:74-99): coalesce adjacent segments with
equal height; on a merge the cursor stays put (`continue`), otherwise it
advances. -/
def mergeNodes : List Seg → List Seg
  | [] => []
  | [a] => [a]
  | a :: b :: rest =>
    if a.stop = b.start ∧ a.height = b.height then
      mergeNodes ({ a with stop := b.stop } :: rest)
    else
      a :: mergeNodes (b :: rest)
termination_by l => l.length

/-- The `while (current && start < end)` overlap loop of `Contour::addSegment`
(Contour.cpp:177-198): if the new segment covers the current node, overwrite
its height and continue from its end; otherwise split the current node. -/
def coverLoop : Int → Int → Int → List Seg → List Seg
  | _, _, _, [] => []
  | s, e, h, c :: rest =>
    if s < e then
      if e ≥ c.stop then
        { c with height := h } :: coverLoop c.stop e h rest
      else
        { start := c.start, stop := e, height := h } ::
          { start := e, stop := c.stop, height := c.height } :: rest
    else c :: rest

/-- `Contour::addSegment` (Contour.cpp:104-202).  The initial
`while (current && current->end <= start)` scan is the
`takeWhile`/`dropWhile` split; the early `return` paths (which skip the final
`mergeNodes()` call) are kept exactly as in the source. -/
def addSegment (l : List Seg) (s e h : Int) : List Seg :=
  if s ≥ e then l
  else
    match l with
    | [] => [⟨s, e, h⟩]
    | _ :: _ =>
      let pre := l.takeWhile (fun n => n.stop ≤ s)
      match l.dropWhile (fun n => n.stop ≤ s) with
      | [] =>
        -- no overlap: extend the tail in place or append at the end
        match l.getLast? with
        | some t =>
          if t.stop = s ∧ t.height = h then
            l.dropLast ++ [{ t with stop := e }]
          else
            l ++ [⟨s, e, h⟩]
        | none => [⟨s, e, h⟩]
      | c :: restTail =>
        if s < c.start then
          match pre.getLast? with
          | some p =>
            if p.stop = s ∧ p.height = h then
              let pre2 := pre.dropLast ++ [{ p with stop := min e c.start }]
              if e > c.start then
                mergeNodes (pre2 ++ coverLoop c.start e h (c :: restTail))
              else
                pre2 ++ c :: restTail
            else
              let filler : Seg := ⟨s, min e c.start, h⟩
              if e ≤ c.start then
                pre ++ filler :: c :: restTail
              else
                mergeNodes (pre ++ filler :: coverLoop c.start e h (c :: restTail))
          | none =>
            let filler : Seg := ⟨s, min e c.start, h⟩
            if e ≤ c.start then
              filler :: c :: restTail
            else
              mergeNodes (filler :: coverLoop c.start e h (c :: restTail))
        else
          mergeNodes (pre ++ coverLoop s e h (c :: restTail))

/-- `Contour::getHeight` (Contour.cpp:207-230): maximum height of the nodes
that are not skipped by the leading scan, start before `e` and end after
`s`. -/
def getHeight (l : List Seg) (s e : Int) : Int :=
  if s ≥ e then 0
  else
    ((((l.dropWhile (fun n => n.stop ≤ s)).takeWhile (fun n => n.start < e)).filter
        (fun n => n.stop > s)).map Seg.height).foldl max 0

/-- `Contour::merge` (Contour.cpp:250-270): no-op on an empty argument, copy on
an empty receiver, otherwise `addSegment` of every segment of the argument. -/
def contourMerge (l other : List Seg) : List Seg :=
  match other with
  | [] => l
  | _ :: _ =>
    match l with
    | [] => other
    | _ :: _ => other.foldl (fun acc c => addSegment acc c.start c.stop c.height) l

/-- One public mutating Contour operation, for stating trace-level
invariants. -/
inductive ContourOp where
  | add (s e h : Int)
  | clear
  | mergeWith (other : List Seg)
deriving Repr

/-- Run a sequence of Contour operations, mirroring
`addSegment` / `clear` / `merge`. -/
def runContourOps : List ContourOp → List Seg → List Seg
  | [], l => l
  | ContourOp.add s e h :: ops, l => runContourOps ops (addSegment l s e h)
  | ContourOp.clear :: ops, _ => runContourOps ops []
  | ContourOp.mergeWith o :: ops, l => runContourOps ops (contourMerge l o)

/-- A segment is non-degenerate: `start < end`. -/
def validSeg (c : Seg) : Bool := c.start < c.stop

/-- The segment list tiles an interval: each node's `end` is the next node's
`start`. -/
def contiguous : List Seg → Bool
  | [] => true
  | [_] => true
  | a :: b :: rest => (a.stop = b.start) && contiguous (b :: rest)

/-- No two abutting adjacent segments share a height (the claimed merged-ness
invariant). -/
def noAbutEq : List Seg → Bool
  | [] => true
  | [_] => true
  | a :: b :: rest => (!(a.stop = b.start && a.height = b.height)) && noAbutEq (b :: rest)

/-- Well-formedness actually maintained by the in-coverage uses of the packers:
valid segments, gapless tiling, no abutting equal-height neighbours. -/
def wfContour (l : List Seg) : Bool := l.all validSeg && contiguous l && noAbutEq l

/-- Adjacent starts strictly increase (spec: "segments are in strictly
increasing start order"). -/
def sortedStarts : List Seg → Bool
  | [] => true
  | [_] => true
  | a :: b :: rest => (a.start < b.start) && sortedStarts (b :: rest)

/-- Two segments are disjoint over `[start, end)`. -/
def segDisjoint (a b : Seg) : Bool := a.stop ≤ b.start || b.stop ≤ a.start

/-- All pairs of distinct list positions hold disjoint segments. -/
def pairwiseDisjoint : List Seg → Bool
  | [] => true
  | a :: rest => rest.all (segDisjoint a) && pairwiseDisjoint rest

/-- The contour invariant exactly as claimed: strictly increasing starts,
pairwise disjoint ranges, no abutting equal-height neighbours. -/
def claimedContourInv (l : List Seg) : Bool :=
  sortedStarts l && pairwiseDisjoint l && noAbutEq l

/-- `start` of the head node (0 when empty). -/
def firstStart (l : List Seg) : Int :=
  match l with
  | [] => 0
  | a :: _ => a.start

/-- `height` of the head node (0 when empty). -/
def firstHeight (l : List Seg) : Int :=
  match l with
  | [] => 0
  | a :: _ => a.height

/-- `end` of the last node (0 when empty). -/
def lastStop (l : List Seg) : Int :=
  match l.getLast? with
  | none => 0
  | some a => a.stop

/-- An `addSegment` range lies inside the currently covered span (always true
on an empty contour, whose span the add then establishes). -/
def inCoverage (l : List Seg) (s e : Int) : Bool :=
  match l with
  | [] => true
  | _ :: _ => firstStart l ≤ s && e ≤ lastStop l

/-- Trace restriction for the amended contour invariant: only `clear` and
`addSegment` whose non-degenerate ranges stay inside the current coverage (the
packers guarantee this by seeding each contour with one `[0, INT_MAX)` base
segment); `merge` replays arbitrary ranges and is not covered. -/
def goodTrace : List Seg → List ContourOp → Bool
  | _, [] => true
  | l, ContourOp.add s e h :: ops =>
    (s ≥ e || inCoverage l s e) && goodTrace (addSegment l s e h) ops
  | _, ContourOp.clear :: ops => goodTrace [] ops
  | _, ContourOp.mergeWith _ :: _ => false

/-! ### Module (src/src/data_struct/Module.cpp)

`Module.hpp` is not present under src/; its fields and trivial accessors are
taken from their uses in Module.cpp (`name`, original `width`/`height`,
placed `x`/`y`, `isRotated`). -/

/-- A rectangle module.  `width`/`height` are the original (unrotated)
dimensions, as stored by the fields of the C++ class. -/
structure PModule where
  name : String
  width : Int
  height : Int
  x : Int
  y : Int
  isRotated : Bool
deriving DecidableEq, Repr

/-- `Module::Module(name, width, height)` (Module.cpp:8-14): position starts at
the origin, unrotated (the non-positive-dimension warning has no state
effect). -/
def mkModule (name : String) (w h : Int) : PModule :=
  { name := name, width := w, height := h, x := 0, y := 0, isRotated := false }

/-- `Module::getWidth` (Module.cpp:26-28). -/
def PModule.getWidth (m : PModule) : Int := if m.isRotated then m.height else m.width

/-- `Module::getHeight` (Module.cpp:30-32). -/
def PModule.getHeight (m : PModule) : Int := if m.isRotated then m.width else m.height

/-- `Module::setPosition` (Module.cpp:55-62): negative coordinates are clamped
to zero (the warning print has no state effect). -/
def PModule.setPosition (m : PModule) (x y : Int) : PModule :=
  { m with x := max 0 x, y := max 0 y }

/-- `Module::rotate` (Module.cpp:64-66). -/
def PModule.rotate (m : PModule) : PModule := { m with isRotated := !m.isRotated }

/-- `Module::setRotation` (Module.cpp:68-70). -/
def PModule.setRotation (m : PModule) (b : Bool) : PModule := { m with isRotated := b }

/-- `Module::getArea` (Module.cpp:73-75): original dimensions, rotation
independent. -/
def PModule.getArea (m : PModule) : Int := m.width * m.height

/-- The mutating Module operations (spec §3: modules are "mutated only through
rotate() and setPosition()"; `setRotation` is the third mutator in the source,
and `resolveOverlap` factors through `setPosition`). -/
inductive ModuleOp where
  | rotate
  | setRotation (b : Bool)
  | setPosition (x y : Int)
deriving Repr

/-- Apply a sequence of Module operations. -/
def runModuleOps : List ModuleOp → PModule → PModule
  | [], m => m
  | ModuleOp.rotate :: ops, m => runModuleOps ops m.rotate
  | ModuleOp.setRotation b :: ops, m => runModuleOps ops (m.setRotation b)
  | ModuleOp.setPosition x y :: ops, m => runModuleOps ops (m.setPosition x y)

/-! ### ASF-B*-tree (src/src/data_struct/ASFBStarTreeCore.cpp,
ASFBStarTreeOperations.cpp)

`ASFBStarTree.hpp` (fields, trivial accessors) and the `BStarTreeNode` /
`SymmetryGroup` classes are not under src/; their shapes are taken from their
uses in the .cpp files and spec §3.  The tree of representative nodes is
modelled the way the source manipulates it: name-indexed `parent` / `left` /
`right` maps (every structural statement in the source goes through
`getParent` / `getLeftChild` / `getRightChild` / `setParent` / `setLeftChild` /
`setRightChild`), plus the `nodeMap` domain.  C++ `double` state
(`symmetryAxisPosition`) is an exact rational here. -/

/-- `std::numeric_limits<int>::max()`, used to seed contours. -/
def INT_MAX : Int := 2147483647

/-- `static_cast<int>` applied to a `double`: truncation toward zero. -/
def ratTrunc (q : ℚ) : Int := if 0 ≤ q then ⌊q⌋ else ⌈q⌉

/-- `SymmetryType` (used by `SymmetryGroup::getType`). -/
inductive SymmetryType where
  | vertical
  | horizontal
deriving DecidableEq, Repr

/-- A symmetry group: pairs and self-symmetric module names (spec §3;
`SymmetryGroup` accessors `getSymmetryPairs`, `getSelfSymmetric`, `getType`
are used by the .cpp files). -/
structure SymmetryGroup where
  name : String
  symType : SymmetryType
  symmetryPairs : List (String × String)
  selfSymmetric : List String
deriving DecidableEq, Repr

/-- Update the module stored under a name in the (key-ordered) module map;
no-op when the key is absent, key order preserved, as for `std::map`
assignment through an existing key. -/
def updateMod : List (String × PModule) → String → (PModule → PModule) →
    List (String × PModule)
  | [], _, _ => []
  | a :: rest, n, f => (if a.1 = n then (a.1, f a.2) else a) :: updateMod rest n f

/-- Lexicographic comparison of byte lists, matching `std::string::operator<`
(and Lean's `String <` on these ASCII names); written out so that it reduces
in the kernel. -/
def strLtAux : List Char → List Char → Bool
  | [], [] => false
  | [], _ :: _ => true
  | _ :: _, [] => false
  | a :: as, b :: bs =>
    if a.toNat < b.toNat then true
    else if b.toNat < a.toNat then false
    else strLtAux as bs

/-- `a < b` on module-name strings. -/
def strLt (a b : String) : Bool := strLtAux a.data b.data

/-- The representative of a pair: the lexicographically larger name
(ASFBStarTreeCore.cpp:38). -/
def pairRep (a b : String) : String := if strLt a b then b else a

/-- `representativeMap` lookup (`ASFBStarTree::getRepresentative` returns ""
when absent).  The constructor writes pair entries first and self-symmetric
entries afterwards, and `std::map::operator[]` keeps the last write, so a
self-symmetric entry wins and among pairs the last containing pair wins. -/
def getRepresentative (g : SymmetryGroup) (m : String) : String :=
  if g.selfSymmetric.contains m then m
  else
    match g.symmetryPairs.reverse.find? (fun p => p.1 = m || p.2 = m) with
    | some p => pairRep p.1 p.2
    | none => ""

/-- Membership in `representativeModules` (`ASFBStarTree::isRepresentative`):
the larger-named half of some pair, or a self-symmetric module. -/
def isRepresentativeB (g : SymmetryGroup) (m : String) : Bool :=
  g.symmetryPairs.any (fun p => pairRep p.1 p.2 = m) || g.selfSymmetric.contains m

/-- `symmetricPairMap` lookup: the partner of a paired module (last containing
pair wins, as for repeated `std::map` writes). -/
def symmetricPairOf (g : SymmetryGroup) (m : String) : Option String :=
  match g.symmetryPairs.reverse.find? (fun p => p.1 = m || p.2 = m) with
  | some p => some (if p.1 = m then p.2 else p.1)
  | none => none

/-- The `representativeModules` set as a duplicate-free list (iteration order
is irrelevant: it is only summed over). -/
def repModules (g : SymmetryGroup) : List String :=
  ((g.symmetryPairs.map (fun p => pairRep p.1 p.2)) ++ g.selfSymmetric).dedup

/-- State of one `ASFBStarTree`. -/
structure ASFState where
  symmetryGroup : SymmetryGroup
  modules : List (String × PModule)
  root : Option String
  parent : String → Option String
  left : String → Option String
  right : String → Option String
  nodes : String → Bool
  horizontalContour : List Seg
  verticalContour : List Seg
  symmetryAxisPosition : ℚ
  axisPositionLocked : Bool
  modifiedNodes : List String

/-- `ASFBStarTree::lockSymmetryAxis` (ASFBStarTreeCore.cpp:87-133): once, the
axis is set to the integer average (C++ `int` division) of the representative
widths (vertical) or heights (horizontal). -/
def lockSymmetryAxis (s : ASFState) : ASFState :=
  if s.axisPositionLocked then s
  else
    let present := (repModules s.symmetryGroup).filterMap
      (fun n => (List.lookup n s.modules).map (fun m => m))
    let count : Int := present.length
    let total : Int :=
      if s.symmetryGroup.symType = SymmetryType.vertical then
        (present.map PModule.getWidth).sum
      else
        (present.map PModule.getHeight).sum
    { s with
      symmetryAxisPosition := ((if 0 < count then total.tdiv count else 0 : Int) : ℚ),
      axisPositionLocked := true }

/-- `ASFBStarTree::initializeContours` (ASFBStarTreeOperations.cpp:19-28). -/
def initializeContours (s : ASFState) : ASFState :=
  { s with
    horizontalContour := addSegment [] 0 INT_MAX 0,
    verticalContour := addSegment [] 0 INT_MAX 0 }

/-- `ASFBStarTree::updateContourWithModule`
(ASFBStarTreeOperations.cpp:33-46). -/
def updateContourWithModule (s : ASFState) (m : PModule) : ASFState :=
  { s with
    horizontalContour :=
      addSegment s.horizontalContour m.x (m.x + m.getWidth) (m.y + m.getHeight),
    verticalContour :=
      addSegment s.verticalContour m.y (m.y + m.getHeight) (m.x + m.getWidth) }

/-- `ASFBStarTree::packNode` (ASFBStarTreeOperations.cpp:51-96).  Note the
source order: `y` is queried from the horizontal contour at the B*-tree `x`
*before* the self-symmetric override replaces `x` (vertical) or `y`
(horizontal); the self-symmetric override truncates the axis on its own and
halves the dimension with integer division. -/
def packNode (s : ASFState) (n : String) : ASFState :=
  match List.lookup n s.modules with
  | none => s
  | some m =>
    let x : Int :=
      match s.parent n with
      | none => 0
      | some pn =>
        match List.lookup pn s.modules with
        | none => 0
        | some pm => if s.left pn = some n then pm.x + pm.getWidth else pm.x
    let y := getHeight s.horizontalContour x (x + m.getWidth)
    let selfSym := s.symmetryGroup.selfSymmetric.contains n
    let x2 :=
      if selfSym && (s.symmetryGroup.symType = SymmetryType.vertical) then
        ratTrunc s.symmetryAxisPosition - m.getWidth.tdiv 2
      else x
    let y2 :=
      if selfSym && ¬(s.symmetryGroup.symType = SymmetryType.vertical) then
        ratTrunc s.symmetryAxisPosition - m.getHeight.tdiv 2
      else y
    let m2 := m.setPosition x2 y2
    updateContourWithModule { s with modules := updateMod s.modules n (fun _ => m2) } m2

/-- The breadth-first packing traversal of `ASFBStarTree::pack`
(ASFBStarTreeOperations.cpp:187-206): a queue of node names, children enqueued
after the node is packed.  `fuel` bounds the number of processed nodes (the
C++ loop terminates because the node structure is a tree; every theorem below
holds for every fuel). -/
def asfPackBFS : Nat → ASFState → List String → ASFState
  | 0, s, _ => s
  | _, s, [] => s
  | Nat.succ fuel, s, n :: queue =>
    let s2 := packNode s n
    let children :=
      (match s2.left n with | some c => [c] | none => []) ++
      (match s2.right n with | some c => [c] | none => [])
    asfPackBFS fuel s2 (queue ++ children)

/-- The axis recomputation at the end of a full `ASFBStarTree::pack`
(ASFBStarTreeOperations.cpp:209-233): the mean of the representative module
centers along the axis dimension. -/
def computeAxisFromReps (s : ASFState) : ℚ :=
  let reps := s.modules.filter (fun p => isRepresentativeB s.symmetryGroup p.1)
  let count : ℚ := reps.length
  if s.symmetryGroup.symType = SymmetryType.vertical then
    if 0 < reps.length then
      ((reps.map (fun p => (p.2.x : ℚ) + (p.2.getWidth : ℚ) / 2)).sum) / count
    else 0
  else
    if 0 < reps.length then
      ((reps.map (fun p => (p.2.y : ℚ) + (p.2.getHeight : ℚ) / 2)).sum) / count
    else 0

/-- One pair step of `ASFBStarTree::calculateSymmetricModulePositions`
(ASFBStarTreeOperations.cpp:103-150): place the non-representative so its
center is the reflection of the representative center about the axis, sharing
the representative's other coordinate; the computed edge coordinate is
truncated to `int` and then clamped by `Module::setPosition`. -/
def mirrorPair (s : ASFState) (pr : String × String) : ASFState :=
  match List.lookup pr.1 s.modules, List.lookup pr.2 s.modules with
  | some mod1, some mod2 =>
    if getRepresentative s.symmetryGroup pr.1 = pr.1 then
      if s.symmetryGroup.symType = SymmetryType.vertical then
        let center1 : ℚ := (mod1.x : ℚ) + (mod1.getWidth : ℚ) / 2
        let reflected : ℚ := 2 * s.symmetryAxisPosition - center1
        let reflectedX : Int := ratTrunc (reflected - (mod2.getWidth : ℚ) / 2)
        { s with modules := updateMod s.modules pr.2 (fun m => m.setPosition reflectedX mod1.y) }
      else
        let center1 : ℚ := (mod1.y : ℚ) + (mod1.getHeight : ℚ) / 2
        let reflected : ℚ := 2 * s.symmetryAxisPosition - center1
        let reflectedY : Int := ratTrunc (reflected - (mod2.getHeight : ℚ) / 2)
        { s with modules := updateMod s.modules pr.2 (fun m => m.setPosition mod1.x reflectedY) }
    else if getRepresentative s.symmetryGroup pr.1 = pr.2 then
      if s.symmetryGroup.symType = SymmetryType.vertical then
        let center2 : ℚ := (mod2.x : ℚ) + (mod2.getWidth : ℚ) / 2
        let reflected : ℚ := 2 * s.symmetryAxisPosition - center2
        let reflectedX : Int := ratTrunc (reflected - (mod1.getWidth : ℚ) / 2)
        { s with modules := updateMod s.modules pr.1 (fun m => m.setPosition reflectedX mod2.y) }
      else
        let center2 : ℚ := (mod2.y : ℚ) + (mod2.getHeight : ℚ) / 2
        let reflected : ℚ := 2 * s.symmetryAxisPosition - center2
        let reflectedY : Int := ratTrunc (reflected - (mod1.getHeight : ℚ) / 2)
        { s with modules := updateMod s.modules pr.1 (fun m => m.setPosition mod2.x reflectedY) }
    else s
  | _, _ => s

/-- The self-symmetric step of `calculateSymmetricModulePositions`
(ASFBStarTreeOperations.cpp:153-167): center the module on the axis (the whole
expression, with the exact `double` half-width, is truncated at once). -/
def centerSelfSym (s : ASFState) (n : String) : ASFState :=
  match List.lookup n s.modules with
  | none => s
  | some m =>
    if s.symmetryGroup.symType = SymmetryType.vertical then
      let newX := ratTrunc (s.symmetryAxisPosition - (m.getWidth : ℚ) / 2)
      { s with modules := updateMod s.modules n (fun mm => mm.setPosition newX mm.y) }
    else
      let newY := ratTrunc (s.symmetryAxisPosition - (m.getHeight : ℚ) / 2)
      { s with modules := updateMod s.modules n (fun mm => mm.setPosition mm.x newY) }

/-- `ASFBStarTree::calculateSymmetricModulePositions`
(ASFBStarTreeOperations.cpp:101-168): mirror every pair in order, then center
every self-symmetric module. -/
def calculateSymmetricModulePositions (s : ASFState) : ASFState :=
  let s1 := s.symmetryGroup.symmetryPairs.foldl mirrorPair s
  s1.symmetryGroup.selfSymmetric.foldl centerSelfSym s1

/-- Depth of a node: length of its parent chain (fuel-bounded walk, as in the
depth comparator of `repackModifiedNodes`). -/
def depthOf (s : ASFState) : Nat → String → Nat
  | 0, _ => 0
  | Nat.succ fuel, n =>
    match s.parent n with
    | none => 0
    | some p => depthOf s fuel p + 1

/-- `ASFBStarTree::repackModifiedNodes` (ASFBStarTreeOperations.cpp:244-280):
re-seed the contours, pack the modified nodes deepest first, then mirror.
`std::sort` with the strict depth comparator leaves the order of equal-depth
nodes unspecified; a stable merge sort is used here. -/
def repackModifiedNodes (fuel : Nat) (s : ASFState) : ASFState :=
  if s.modifiedNodes.isEmpty then s
  else
    let s1 := initializeContours s
    let sorted := s.modifiedNodes.mergeSort (fun a b => depthOf s fuel b ≤ depthOf s fuel a)
    let s2 := sorted.foldl packNode s1
    let s3 := calculateSymmetricModulePositions s2
    { s3 with modifiedNodes := [] }

/-- `ASFBStarTree::pack` (ASFBStarTreeOperations.cpp:174-239): fail without a
root; with modified nodes, only repack those; otherwise a full breadth-first
pack, then the axis is *recomputed* from the packed representative centers
(overwriting the locked value), then mirroring. -/
def asfPack (fuel : Nat) (s : ASFState) : Bool × ASFState :=
  match s.root with
  | none => (false, s)
  | some r =>
    if s.modifiedNodes.isEmpty = false then
      (true, repackModifiedNodes fuel s)
    else
      let s1 := initializeContours s
      let s2 := asfPackBFS fuel s1 [r]
      let s3 := { s2 with symmetryAxisPosition := computeAxisFromReps s2 }
      (true, calculateSymmetricModulePositions s3)

/-- `ASFBStarTree::rotateModule` (ASFBStarTreeOperations.cpp:340-365): fail
only when the module is not in the group's module map; rotate the paired
partner as well (when present); self-symmetric modules get no extra handling;
no coordinate is touched and no repack happens. -/
def asfRotateModule (s : ASFState) (n : String) : Bool × ASFState :=
  match List.lookup n s.modules with
  | none => (false, s)
  | some _ =>
    let s1 :=
      match symmetricPairOf s.symmetryGroup n with
      | some partner => { s with modules := updateMod s.modules partner PModule.rotate }
      | none => s
    (true, { s1 with modules := updateMod s1.modules n PModule.rotate })

/-- `ASFBStarTree::findNode` (ASFBStarTreeCore.cpp:304-332): `none` for
non-representative names, otherwise the `nodeMap` entry (the fallback
tree traversal agrees with the map on reachable states). -/
def asfFindNode (s : ASFState) (n : String) : Option String :=
  if isRepresentativeB s.symmetryGroup n = false then none
  else if s.nodes n then some n else none

/-- `ASFBStarTree::markNodeForRepack`: insert into the modified set. -/
def markNode (s : ASFState) (n : String) : ASFState :=
  if s.modifiedNodes.contains n then s
  else { s with modifiedNodes := s.modifiedNodes ++ [n] }

/-- `ASFBStarTree::isOnBoundary` (ASFBStarTreeCore.cpp:258-260): membership in
the self-symmetric list. -/
def isOnBoundary (s : ASFState) (n : String) : Bool :=
  s.symmetryGroup.selfSymmetric.contains n

set_option maxHeartbeats 1000000 in
/-- The mutating path of `ASFBStarTree::swapNodes`
(ASFBStarTreeOperations.cpp:456-527), reached after the rejection guards:
exchange parents (with root bookkeeping), then exchange children (read after
the reattachment, as in the source), mark, and repack the modified nodes. -/
def asfSwapSurgery (fuel : Nat) (s : ASFState) (n1 n2 : String) : ASFState :=
      let parent1 := s.parent n1
      let parent2 := s.parent n2
      let isL1 : Bool := match parent1 with | some p => decide (s.left p = some n1) | none => false
      let isL2 : Bool := match parent2 with | some p => decide (s.left p = some n2) | none => false
      let t1 :=
        match parent1 with
        | some p =>
          if isL1 then { s with left := Function.update s.left p none }
          else { s with right := Function.update s.right p none }
        | none => s
      let t2 :=
        match parent2 with
        | some p =>
          if isL2 then { t1 with left := Function.update t1.left p none }
          else { t1 with right := Function.update t1.right p none }
        | none => t1
      let t3 :=
        match parent1 with
        | some p =>
          let u :=
            if isL1 then { t2 with left := Function.update t2.left p (some n2) }
            else { t2 with right := Function.update t2.right p (some n2) }
          { u with parent := Function.update u.parent n2 (some p) }
        | none => { t2 with root := some n2, parent := Function.update t2.parent n2 none }
      let t4 :=
        match parent2 with
        | some p =>
          let u :=
            if isL2 then { t3 with left := Function.update t3.left p (some n1) }
            else { t3 with right := Function.update t3.right p (some n1) }
          { u with parent := Function.update u.parent n1 (some p) }
        | none => { t3 with root := some n1, parent := Function.update t3.parent n1 none }
      let lc1 := t4.left n1
      let rc1 := t4.right n1
      let lc2 := t4.left n2
      let rc2 := t4.right n2
      let t5 := { t4 with
        left := Function.update t4.left n1 lc2,
        right := Function.update t4.right n1 rc2 }
      let t6 :=
        match lc2 with
        | some c => { t5 with parent := Function.update t5.parent c (some n1) }
        | none => t5
      let t7 :=
        match rc2 with
        | some c => { t6 with parent := Function.update t6.parent c (some n1) }
        | none => t6
      let t8 := { t7 with
        left := Function.update t7.left n2 lc1,
        right := Function.update t7.right n2 rc1 }
      let t9 :=
        match lc1 with
        | some c => { t8 with parent := Function.update t8.parent c (some n2) }
        | none => t8
      let t10 :=
        match rc1 with
        | some c => { t9 with parent := Function.update t9.parent c (some n2) }
        | none => t9
      let t11 := markNode t10 n1
      let t12 := markNode t11 n2
      let t13 := match t12.parent n1 with | some p => markNode t12 p | none => t12
      let t14 := match t13.parent n2 with | some p => markNode t13 p | none => t13
      repackModifiedNodes fuel t14

/-- `ASFBStarTree::swapNodes` (ASFBStarTreeOperations.cpp:433-528): fail when a
node is missing or exactly one of the two modules is self-symmetric, before
any mutation; otherwise perform the surgery. -/
def asfSwapNodes (fuel : Nat) (s : ASFState) (n1 n2 : String) : Bool × ASFState :=
  match asfFindNode s n1, asfFindNode s n2 with
  | some _, some _ =>
    let b1 := isOnBoundary s n1
    let b2 := isOnBoundary s n2
    if (b1 || b2) && !(b1 && b2) then (false, s)
    else (true, asfSwapSurgery fuel s n1 n2)
  | _, _ => (false, s)

/-! ### HB*-tree structural view (src/src/data_struct/HBStarTreeCore.cpp)

`HBStarTree.hpp` / `HBStarTreeNode` are not under src/; `isLeftChild()` is the
standard `parent && parent->getLeftChild() == this` (it is used interchangeably
with that test throughout HBStarTreeCore.cpp).  The claim under study
(`swapNodes` double application) concerns only the `parent`/`left`/`right`
relations and the root, so the heap of nodes is modelled by those maps over an
arbitrary name type plus the `nodeMap` domain.  `markSubtreeForRepack` only
populates the dirty set, and the trailing `repackAffectedSubtrees()` (run when
`isPacked`) recomputes coordinates/contours; on trees without hierarchy nodes,
or on unpacked trees, it does not alter the modelled relations
(`updateContourNodes` iterates the empty `symmetryGroupNodes` map), so it is
outside this structural view. -/

/-- The pointer structure of an HB*-tree. -/
structure HBHeap (α : Type) where
  root : Option α
  nodes : α → Bool
  parent : α → Option α
  left : α → Option α
  right : α → Option α

/-- The node2-is-a-child-of-node1 branch of `HBStarTree::swapNodes`
(HBStarTreeCore.cpp:626-664).  The source re-tests
`node1->getLeftChild() == node2` *after* detaching node2 (lines 628-631 then
644-648), so the re-test can only fail and node1 is reattached as node2's
right child. -/
def hbSwapChildCase {α : Type} [DecidableEq α] (s : HBHeap α) (n1 n2 : α) :
    HBHeap α :=
  let parent1 := s.parent n1
  let isL1 : Bool := match parent1 with | some p => decide (s.left p = some n1) | none => false
  let t1 :=
    if s.left n1 = some n2 then { s with left := Function.update s.left n1 none }
    else { s with right := Function.update s.right n1 none }
  let t2 :=
    match parent1 with
    | some p =>
      if isL1 then { t1 with left := Function.update t1.left p none }
      else { t1 with right := Function.update t1.right p none }
    | none => t1
  let t3 :=
    if t2.left n1 = some n2 then { t2 with left := Function.update t2.left n2 (some n1) }
    else { t2 with right := Function.update t2.right n2 (some n1) }
  let t4 := { t3 with parent := Function.update t3.parent n1 (some n2) }
  match parent1 with
  | some p =>
    let u :=
      if isL1 then { t4 with left := Function.update t4.left p (some n2) }
      else { t4 with right := Function.update t4.right p (some n2) }
    { u with parent := Function.update u.parent n2 (some p) }
  | none => { t4 with root := some n2, parent := Function.update t4.parent n2 none }

/-- The guarded `child->setParent(q)` calls of `HBStarTree::swapNodes`
(HBStarTreeCore.cpp:736-746): when the optional child is present, repoint its
parent. -/
def setParentOf {α : Type} [DecidableEq α] (o : Option α) (q : α) (t : HBHeap α) :
    HBHeap α :=
  match o with
  | some c => { t with parent := Function.update t.parent c (some q) }
  | none => t

/-- The general branch of `HBStarTree::swapNodes` (HBStarTreeCore.cpp:706-767):
detach both nodes from their parents, read and cross-assign the four children,
then reattach each node to the other's old parent (or make it the root). -/
def hbSwapGeneral {α : Type} [DecidableEq α] (s : HBHeap α) (n1 n2 : α) :
    HBHeap α :=
  let parent1 := s.parent n1
  let parent2 := s.parent n2
  let isL1 : Bool := match parent1 with | some p => decide (s.left p = some n1) | none => false
  let isL2 : Bool := match parent2 with | some p => decide (s.left p = some n2) | none => false
  let t1 :=
    match parent1 with
    | some p =>
      if isL1 then { s with left := Function.update s.left p none }
      else { s with right := Function.update s.right p none }
    | none => s
  let t2 :=
    match parent2 with
    | some p =>
      if isL2 then { t1 with left := Function.update t1.left p none }
      else { t1 with right := Function.update t1.right p none }
    | none => t1
  let lc1 := t2.left n1
  let rc1 := t2.right n1
  let lc2 := t2.left n2
  let rc2 := t2.right n2
  let t3 := { t2 with
    left := Function.update t2.left n1 lc2,
    right := Function.update t2.right n1 rc2 }
  let t4 := setParentOf lc2 n1 t3
  let t5 := setParentOf rc2 n1 t4
  let t6 := { t5 with
    left := Function.update t5.left n2 lc1,
    right := Function.update t5.right n2 rc1 }
  let t7 := setParentOf lc1 n2 t6
  let t8 := setParentOf rc1 n2 t7
  let t9 :=
    match parent1 with
    | some p =>
      let u :=
        if isL1 then { t8 with left := Function.update t8.left p (some n2) }
        else { t8 with right := Function.update t8.right p (some n2) }
      { u with parent := Function.update u.parent n2 (some p) }
    | none => { t8 with root := some n2, parent := Function.update t8.parent n2 none }
  match parent2 with
  | some p =>
    let u :=
      if isL2 then { t9 with left := Function.update t9.left p (some n1) }
      else { t9 with right := Function.update t9.right p (some n1) }
    { u with parent := Function.update u.parent n1 (some p) }
  | none => { t9 with root := some n1, parent := Function.update t9.parent n1 none }

/-- `HBStarTree::swapNodes` (HBStarTreeCore.cpp:607-776), structure only: fail
when a node is missing from the `nodeMap`; dispatch the two parent-child
special cases (the second mirrors the first with the roles exchanged) and the
general case. -/
def hbSwapNodes {α : Type} [DecidableEq α] (s : HBHeap α) (n1 n2 : α) :
    Bool × HBHeap α :=
  if s.nodes n1 = false ∨ s.nodes n2 = false then (false, s)
  else if s.left n1 = some n2 ∨ s.right n1 = some n2 then
    (true, hbSwapChildCase s n1 n2)
  else if s.left n2 = some n1 ∨ s.right n2 = some n1 then
    -- the node1-is-a-child-of-node2 branch (lines 666-704) is the first
    -- branch with the two roles exchanged
    (true, hbSwapChildCase s n2 n1)
  else (true, hbSwapGeneral s n1 n2)

/-- The transposition of two names. -/
def transp {α : Type} [DecidableEq α] (a b x : α) : α :=
  if x = a then b else if x = b then a else x

/-- Renaming a heap along the transposition of two names: the specification of
what a structural swap of two unrelated nodes achieves. -/
def relabel {α : Type} [DecidableEq α] (a b : α) (s : HBHeap α) : HBHeap α :=
  { root := s.root.map (transp a b),
    nodes := fun n => s.nodes (transp a b n),
    parent := fun n => (s.parent (transp a b n)).map (transp a b),
    left := fun n => (s.left (transp a b n)).map (transp a b),
    right := fun n => (s.right (transp a b n)).map (transp a b) }

/-- Well-formedness of a heap, as needed for the swap round-trip: child slots
point back through `parent`, `parent` points to an occupied slot, the two
slots of a node differ (unless empty), no node is its own child, a
parentless present node is the root, and the root has no parent. -/
def HBWf {α : Type} (s : HBHeap α) : Prop :=
  (∀ n p, s.left p = some n → s.parent n = some p) ∧
  (∀ n p, s.right p = some n → s.parent n = some p) ∧
  (∀ n p, s.parent n = some p → s.left p = some n ∨ s.right p = some n) ∧
  (∀ p, s.left p = none ∨ s.left p ≠ s.right p) ∧
  (∀ n, s.left n ≠ some n ∧ s.right n ≠ some n) ∧
  (∀ n, s.parent n = none → s.nodes n = true → s.root = some n) ∧
  (∀ n, s.root = some n → s.parent n = none)

/-! ### HB*-tree hierarchy-free packing view (src/src/data_struct/
HBStarTreeCore.cpp, HBStarTreePacking.cpp, HBStarTreeUtils.cpp)

For designs without symmetry groups every HB*-tree node is a MODULE node;
`constructSymmetryIslands` is a no-op and `packSubtree` exercises only its
MODULE branch.  This positional view (an inductive binary tree of module
names) serves `clone`, construction and packing. -/

/-- A binary tree of module-node names. -/
inductive HBTree where
  | nil
  | node (name : String) (l r : HBTree)
deriving DecidableEq, Repr

/-- The left-skewed chain built by `constructInitialTreeStructure`
(HBStarTreeCore.cpp:126-165) when there are no symmetry groups: nodes are
created per module and then chained as left children *in `moduleNodes` map
order*, i.e. sorted by name (the area sort at lines 121-124 orders a vector
that is not the one iterated when linking). -/
def chainLeft : List String → HBTree
  | [] => HBTree.nil
  | n :: rest => HBTree.node n (chainLeft rest) HBTree.nil

/-- `HBStarTree::constructInitialTree` (HBStarTreeCore.cpp:182-196) for a
design without symmetry groups: the deterministic left-skewed chain over the
module names in map (lexicographic) order. -/
def constructInitialTree (ms : List (String × PModule)) : HBTree :=
  chainLeft ((ms.map Prod.fst).mergeSort (fun a b => !strLt b a))

/-- State of an HB*-tree over a hierarchy-free design. -/
structure HBState where
  modules : List (String × PModule)
  tree : HBTree
  horizontalContour : List Seg
  verticalContour : List Seg
  totalArea : Int
  isPacked : Bool
deriving DecidableEq, Repr

/-- `HBStarTree::clone` (HBStarTreeUtils.cpp:151-179): copy every module (all
fields) and the groups, then *rebuild* the initial tree over the copies via
`constructInitialTree` — the current tree structure is not copied — and copy
`isPacked`, `totalArea` and the contours. -/
def hbClone (s : HBState) : HBState :=
  { modules := s.modules,
    tree := constructInitialTree s.modules,
    horizontalContour := s.horizontalContour,
    verticalContour := s.verticalContour,
    totalArea := s.totalArea,
    isPacked := s.isPacked }

/-- `HBStarTree::packSubtree` (HBStarTreePacking.cpp:233-465), MODULE branch:
x from the parent module per B*-tree rules, y from the horizontal contour,
position set (clamped by `Module::setPosition`), both contours raised with the
unclamped local coordinates, then left subtree, then right subtree.  A missing
module name returns without packing the subtree.  The parent's placed
coordinates are read from the module map, so the traversal carries
`(parent name, is-left-child)`. -/
def hbPackSubtree :
    HBTree → Option (String × Bool) →
    List (String × PModule) × List Seg × List Seg →
    List (String × PModule) × List Seg × List Seg
  | HBTree.nil, _, st => st
  | HBTree.node nm l r, pinfo, (ms, hc, vc) =>
    match List.lookup nm ms with
    | none => (ms, hc, vc)
    | some m =>
      let x : Int :=
        match pinfo with
        | none => 0
        | some (pn, isLeft) =>
          match List.lookup pn ms with
          | none => 0
          | some pm => if isLeft then pm.x + pm.getWidth else pm.x
      let y := getHeight hc x (x + m.getWidth)
      let m2 := m.setPosition x y
      let ms2 := updateMod ms nm (fun _ => m2)
      let hc2 := addSegment hc x (x + m.getWidth) (y + m.getHeight)
      let vc2 := addSegment vc y (y + m.getHeight) (x + m.getWidth)
      let st2 := hbPackSubtree l (some (nm, true)) (ms2, hc2, vc2)
      hbPackSubtree r (some (nm, false)) st2

/-- The bounding-box fold of `HBStarTree::pack` (HBStarTreePacking.cpp:40-61):
`(minX, minY, maxX, maxY)` over all modules, with the C++ accumulator seeds
`INT_MAX`/`0`. -/
def bboxOf (ms : List (String × PModule)) : Int × Int × Int × Int :=
  ms.foldl
    (fun acc p =>
      let (minX, minY, maxX, maxY) := acc
      (min minX p.2.x, min minY p.2.y,
       max maxX (p.2.x + p.2.getWidth), max maxY (p.2.y + p.2.getHeight)))
    (INT_MAX, INT_MAX, 0, 0)

/-- The guarded area update of `pack` (lines 55-61 and 90-92): the product when
the box is proper, otherwise the fallback value (0 on the first computation,
the previous area after the shift pass). -/
def bboxAreaOr (ms : List (String × PModule)) (fallback : Int) : Int :=
  let (minX, minY, maxX, maxY) := bboxOf ms
  if minX < maxX ∧ minY < maxY then (maxX - minX) * (maxY - minY) else fallback

/-- The box overlap test used by `validateAndFixOverlaps`
(HBStarTreePacking.cpp:112-116). -/
def overlapsB (m1 m2 : PModule) : Bool :=
  m1.x < m2.x + m2.getWidth && m1.x + m1.getWidth > m2.x &&
    m1.y < m2.y + m2.getHeight && m1.y + m1.getHeight > m2.y

/-- One pair step of `HBStarTree::validateAndFixOverlaps`
(HBStarTreePacking.cpp:103-161): on overlap, push the module with the larger
coordinate past the other along the axis of smaller overlap.  Returns the
updated map and whether this pair overlapped. -/
def fixPair (ms : List (String × PModule)) (pr : String × String) :
    List (String × PModule) × Bool :=
  match List.lookup pr.1 ms, List.lookup pr.2 ms with
  | some m1, some m2 =>
    if overlapsB m1 m2 then
      let overlapX := min (m1.x + m1.getWidth) (m2.x + m2.getWidth) - max m1.x m2.x
      let overlapY := min (m1.y + m1.getHeight) (m2.y + m2.getHeight) - max m1.y m2.y
      if overlapX ≤ overlapY then
        if m1.x ≤ m2.x then
          (updateMod ms pr.2 (fun m => m.setPosition (m1.x + m1.getWidth) m.y), true)
        else
          (updateMod ms pr.1 (fun m => m.setPosition (m2.x + m2.getWidth) m.y), true)
      else
        if m1.y ≤ m2.y then
          (updateMod ms pr.2 (fun m => m.setPosition m.x (m1.y + m1.getHeight)), true)
        else
          (updateMod ms pr.1 (fun m => m.setPosition m.x (m2.y + m2.getHeight)), true)
    else (ms, false)
  | _, _ => (ms, false)

/-- All ordered index pairs `(it1, it2)` with `it2` after `it1`, in the
iteration order of the nested loops. -/
def orderedPairs {α : Type} : List α → List (α × α)
  | [] => []
  | a :: rest => rest.map (fun b => (a, b)) ++ orderedPairs rest

/-- `HBStarTree::validateAndFixOverlaps` (HBStarTreePacking.cpp:98-168): scan
all module pairs in map order, fixing overlaps in place (later comparisons see
the moved positions); returns the map and whether no overlap was found. -/
def validateAndFixOverlaps (ms : List (String × PModule)) :
    List (String × PModule) × Bool :=
  (orderedPairs (ms.map Prod.fst)).foldl
    (fun acc pr =>
      let (cur, valid) := acc
      let (cur2, overlapped) := fixPair cur pr
      (cur2, valid && !overlapped))
    (ms, true)

/-- The inner search of `shiftOverlappingModules`
(HBStarTreePacking.cpp:188-198): bump `y` by 10 until the `(x, y)` grid cell
is free (fuel-bounded; the C++ loop terminates because the grid is finite). -/
def shiftLoop : Nat → List (Int × Int) → Int → Int → Int
  | 0, _, _, y => y
  | Nat.succ fuel, occupied, x, y =>
    let y2 := y + 10
    if occupied.contains (x, y2) then shiftLoop fuel occupied x y2 else y2

/-- `HBStarTree::shiftOverlappingModules` (HBStarTreePacking.cpp:170-228):
walk the modules in map order, shifting any whose exact `(x, y)` cell is
taken, then rebuild both contours from the seed segment and every module. -/
def shiftOverlappingModules (fuel : Nat) (ms : List (String × PModule)) :
    List (String × PModule) × List Seg × List Seg :=
  let shifted :=
    (ms.foldl
      (fun (acc : List (String × PModule) × List (Int × Int)) p =>
        let (cur, occupied) := acc
        let m := p.2
        if occupied.contains (m.x, m.y) then
          let newY := shiftLoop fuel occupied m.x m.y
          (updateMod cur p.1 (fun mm => mm.setPosition mm.x newY),
           occupied ++ [(m.x, newY)])
        else
          (cur, occupied ++ [(m.x, m.y)]))
      (ms, [])).1
  let hc := shifted.foldl
    (fun hc p =>
      addSegment hc p.2.x (p.2.x + p.2.getWidth) (p.2.y + p.2.getHeight))
    (addSegment [] 0 INT_MAX 0)
  let vc := shifted.foldl
    (fun vc p =>
      addSegment vc p.2.y (p.2.y + p.2.getHeight) (p.2.x + p.2.getWidth))
    (addSegment [] 0 INT_MAX 0)
  (shifted, hc, vc)

/-- `HBStarTree::pack` (HBStarTreePacking.cpp:17-96) for a hierarchy-free
design with no pending partial repack (`modifiedSubtrees` empty): fail without
a root, else re-seed the contours, pack the whole tree, compute the area,
run the overlap safety net, and on detected overlaps run the shift pass and
recompute the area (`updateContourNodes` is a no-op without groups). -/
def hbPack (fuel : Nat) (s : HBState) : Bool × HBState :=
  match s.tree with
  | HBTree.nil => (false, s)
  | HBTree.node _ _ _ =>
    let hc0 := addSegment [] 0 INT_MAX 0
    let vc0 := addSegment [] 0 INT_MAX 0
    let (ms1, hc1, vc1) := hbPackSubtree s.tree none (s.modules, hc0, vc0)
    let area1 := bboxAreaOr ms1 0
    let (ms2, valid) := validateAndFixOverlaps ms1
    if valid then
      (true, { s with modules := ms2, horizontalContour := hc1,
                      verticalContour := vc1, totalArea := area1, isPacked := true })
    else
      let (ms3, hc3, vc3) := shiftOverlappingModules fuel ms2
      (true, { s with modules := ms3, horizontalContour := hc3,
                      verticalContour := vc3, totalArea := bboxAreaOr ms3 area1,
                      isPacked := true })

/-! ### Solver driver (src/src/solver/solver.cpp)

`PlacementSolver::solve` (solver.cpp:163-300).  The area values observed by
the fallback logic after `sa.run()` are inputs here: `initialArea` (line 179),
`saPackedArea` — `hbTree->getArea()` after packing the SA result (lines
249-262) — and `clonePackedArea`, the area produced when a fallback branch
re-packs `initialSolution` (lines 271-273, 278-280).  `initialSolution` is
`hbTree->clone()` (line 178), and `clone` rebuilds the *basic* initial tree
rather than copying the packed structure (see `hbClone`), so `clonePackedArea`
is in general a different value than `initialArea`; the SA result is likewise
a clone, so `saPackedArea` is not the SA best cost.  Randomness makes both
values run-dependent; the branch logic is total in them. -/

/-- The post-`sa.run()` fallback logic of `PlacementSolver::solve`
(solver.cpp:241-290).  Result: `(reported totalArea, bounding-box area of the
placement actually held in `hbTree` at return)`. -/
def solveFinalize (initialArea saPackedArea clonePackedArea : Int) : Int × Int :=
  if saPackedArea ≤ 0 ∨ saPackedArea > initialArea * 2 then
    (clonePackedArea, clonePackedArea)
  else if saPackedArea > initialArea then
    (initialArea, clonePackedArea)
  else
    (saPackedArea, saPackedArea)

/-! ### Simulated annealing (src/src/utils/SA.cpp)

The SA loop is embedded with its sampled quantities as an oracle: the random
numbers, the generated moves and the packed costs they produce are inputs
indexed by the iteration counter; the loop logic (best tracking, acceptance,
timeout checks, stagnation cooling) follows the source.  The best/current
*solutions* are tree clones whose only observable in the claims below is their
cost, so the state tracks the costs. -/

/-- The sampled behaviour of one SA run. `costBefore`/`costAfter` are
`calculateCost(currentSolution)` before a move and after apply+pack; `accept`
is the outcome of `uniformDist(rng) < exp(-Δ/T)`; `timedOut` is
`hasTimedOut()` at the k-th cooperative check. -/
structure SAOracle where
  genMove : Nat → Bool
  costBefore : Nat → Int
  costAfter : Nat → Int
  accept : Nat → Bool
  timedOut : Nat → Bool

/-- The mutable counters of `SimulatedAnnealing` relevant to the claims. -/
structure SAState where
  bestCost : Int
  acceptedMoves : Nat
  rejectedMoves : Nat
  totalIterations : Nat
  noImprovementCount : Nat
  iter : Nat
  checks : Nat
deriving DecidableEq, Repr

/-- `SimulatedAnnealing::processTemperature` (SA.cpp:678-737): for each of the
`movesPerTemperature` iterations, check the cooperative timeout every 100th
iteration (throwing — modelled as `Except.error` — when set), generate a move
(skipping the iteration when generation fails), accept improving moves and
uphill moves per the sampled probability, and update the best cost on
improvement.  Returns the state and the `improved` flag. -/
def processTemperature (mpt : Nat) (oracle : SAOracle) :
    Nat → Bool → SAState → Except SAState (SAState × Bool)
  | 0, improved, st => Except.ok (st, improved)
  | Nat.succ remaining, improved, st =>
    let i := mpt - Nat.succ remaining
    if i % 100 = 0 && oracle.timedOut st.checks then
      Except.error { st with checks := st.checks + 1 }
    else
      let st := if i % 100 = 0 then { st with checks := st.checks + 1 } else st
      if oracle.genMove st.iter = false then
        processTemperature mpt oracle remaining improved { st with iter := st.iter + 1 }
      else
        let k := st.iter
        let delta := oracle.costAfter k - oracle.costBefore k
        let accepted := if delta ≤ 0 then true else oracle.accept k
        if accepted then
          let st2 := { st with acceptedMoves := st.acceptedMoves + 1 }
          if oracle.costAfter k < st2.bestCost then
            processTemperature mpt oracle remaining true
              { st2 with bestCost := oracle.costAfter k, noImprovementCount := 0,
                         totalIterations := st2.totalIterations + 1, iter := k + 1 }
          else
            processTemperature mpt oracle remaining improved
              { st2 with noImprovementCount := st2.noImprovementCount + 1,
                         totalIterations := st2.totalIterations + 1, iter := k + 1 }
        else
          processTemperature mpt oracle remaining improved
            { st with rejectedMoves := st.rejectedMoves + 1,
                      totalIterations := st.totalIterations + 1, iter := k + 1 }

/-- The SA parameters of `SimulatedAnnealing::run`. -/
structure SAParams where
  finalTemperature : ℚ
  coolingRate : ℚ
  movesPerTemperature : Nat
  noImprovementLimit : Nat

/-- `SimulatedAnnealing::run` (SA.cpp:778-893).  Per temperature pass: on a
set timeout flag at the loop top, return the best solution so far (a normal
return); otherwise run `processTemperature`, whose timeout `runtime_error` is
caught by the surrounding `catch` (lines 880-892) which also returns the best
solution; stagnation for `noImprovementLimit` passes halves the temperature
once before the regular cooling.  `fuel` bounds the number of passes (the C++
loop terminates by geometric cooling; the claims hold for every fuel).
`validateBestSolution` moves modules of the best solution but never touches
`bestCost`, which is what `getBestCost()` reports. -/
def saRun (p : SAParams) (oracle : SAOracle) :
    Nat → ℚ → Nat → SAState → SAState
  | 0, _, _, st => st
  | Nat.succ fuel, temperature, consecNoImprovement, st =>
    if temperature ≤ p.finalTemperature then st
    else if oracle.timedOut st.checks then { st with checks := st.checks + 1 }
    else
      let st1 := { st with checks := st.checks + 1 }
      match processTemperature p.movesPerTemperature oracle p.movesPerTemperature false st1 with
      | Except.error st2 => st2
      | Except.ok (st2, improved) =>
        if improved = false then
          if p.noImprovementLimit ≤ consecNoImprovement + 1 then
            saRun p oracle fuel (temperature * (1/2) * p.coolingRate) 0 st2
          else
            saRun p oracle fuel (temperature * p.coolingRate) (consecNoImprovement + 1) st2
        else
          saRun p oracle fuel (temperature * p.coolingRate) 0 st2

/-- The cost state at SA construction (SA.cpp:227-241): the initial solution
is packed, cloned into the best solution, and `bestCost = currentCost =
calculateCost(initial)`; `run` then resets the statistics counters. -/
def saInit (initialCost : Int) : SAState :=
  { bestCost := initialCost, acceptedMoves := 0, rejectedMoves := 0,
    totalIterations := 0, noImprovementCount := 0, iter := 0, checks := 0 }

/-! ### Derived geometric quantities and well-formedness predicates -/

/-- Horizontal center of a module, `x + width/2` over exact rationals. -/
def centerX (m : PModule) : ℚ := (m.x : ℚ) + (m.getWidth : ℚ) / 2

/-- Vertical center of a module. -/
def centerY (m : PModule) : ℚ := (m.y : ℚ) + (m.getHeight : ℚ) / 2

/-- All module names mentioned by the symmetry pairs, in order. -/
def pairNames (g : SymmetryGroup) : List String :=
  g.symmetryPairs.foldr (fun p acc => p.1 :: p.2 :: acc) []

/-- Spec §3 invariant on a group: every module belongs to at most one pair,
pair entries are distinct and not also self-symmetric. -/
def groupWellFormed (g : SymmetryGroup) : Bool :=
  (pairNames g ++ g.selfSymmetric).Nodup

/-! ### Concrete states used by counterexamples and witnesses -/

/-- A vertical group with the single pair (A, B); B (the lexicographically
larger name) is the representative. -/
def exGroupC12 : SymmetryGroup :=
  { name := "g1", symType := SymmetryType.vertical,
    symmetryPairs := [("A", "B")], selfSymmetric := [] }

/-- The ASF-B*-tree for `exGroupC12` over A (3×10) and B (4×10), after
construction (tree = the root B alone) and before the axis lock. -/
def exASFBase : ASFState :=
  { symmetryGroup := exGroupC12,
    modules := [("A", mkModule "A" 3 10), ("B", mkModule "B" 4 10)],
    root := some "B",
    parent := fun _ => none,
    left := fun _ => none,
    right := fun _ => none,
    nodes := fun n => n = "B",
    horizontalContour := [],
    verticalContour := [],
    symmetryAxisPosition := 0,
    axisPositionLocked := false,
    modifiedNodes := [] }

/-- `exASFBase` with the axis locked (as `constructInitialTree` does before the
first pack): the locked position is the average representative width, 4. -/
def exASFLocked : ASFState := lockSymmetryAxis exASFBase

/-- A mirror-exact sibling of `exASFLocked` for the witness: equal widths
(4×10 and 4×10), representative B already packed at the origin, axis at 2. -/
def exASFEven : ASFState :=
  { symmetryGroup := exGroupC12,
    modules := [("A", mkModule "A" 4 10), ("B", mkModule "B" 4 10)],
    root := some "B",
    parent := fun _ => none,
    left := fun _ => none,
    right := fun _ => none,
    nodes := fun n => n = "B",
    horizontalContour := addSegment [] 0 INT_MAX 0,
    verticalContour := addSegment [] 0 INT_MAX 0,
    symmetryAxisPosition := 2,
    axisPositionLocked := true,
    modifiedNodes := [] }

/-- A two-pair vertical group, as in the spec's multi-pair scenarios: pairs
(A, B) and (C, D) with representatives B and D. -/
def exGroupTwoPairs : SymmetryGroup :=
  { name := "g3", symType := SymmetryType.vertical,
    symmetryPairs := [("A", "B"), ("C", "D")], selfSymmetric := [] }

/-- An ASF-B*-tree over the two-pair group with all modules 4×10, the
representatives B and D packed at the origin and the axis at 2, so both
mirrorings are exact. -/
def exASFTwoPairs : ASFState :=
  { symmetryGroup := exGroupTwoPairs,
    modules := [("A", mkModule "A" 4 10), ("B", mkModule "B" 4 10),
                ("C", mkModule "C" 4 10), ("D", mkModule "D" 4 10)],
    root := some "B",
    parent := fun n => if n = "D" then some "B" else none,
    left := fun n => if n = "B" then some "D" else none,
    right := fun _ => none,
    nodes := fun n => n = "B" || n = "D",
    horizontalContour := addSegment [] 0 INT_MAX 0,
    verticalContour := addSegment [] 0 INT_MAX 0,
    symmetryAxisPosition := 2,
    axisPositionLocked := true,
    modifiedNodes := [] }

/-- An ASF-B*-tree with a pair (A, B) and a self-symmetric module S, used to
exercise the `swapNodes` rejection paths: representatives B and S form the
tree (S the root, B its right child). -/
def exASFSwap : ASFState :=
  { symmetryGroup :=
      { name := "g2", symType := SymmetryType.vertical,
        symmetryPairs := [("A", "B")], selfSymmetric := ["S"] },
    modules := [("A", mkModule "A" 2 2), ("B", mkModule "B" 2 2),
                ("S", mkModule "S" 2 2)],
    root := some "S",
    parent := fun n => if n = "B" then some "S" else none,
    left := fun _ => none,
    right := fun n => if n = "S" then some "B" else none,
    nodes := fun n => n = "B" || n = "S",
    horizontalContour := [],
    verticalContour := [],
    symmetryAxisPosition := 0,
    axisPositionLocked := true,
    modifiedNodes := [] }

/-- A two-node HB*-tree heap: root a with left child b. -/
def exHeapC6 : HBHeap String :=
  { root := some "a",
    nodes := fun n => n = "a" || n = "b",
    parent := fun n => if n = "b" then some "a" else none,
    left := fun n => if n = "a" then some "b" else none,
    right := fun _ => none }

/-- A three-node HB*-tree heap over `Fin 3`: root 0 with left child 1 and
right child 2 (nodes 1 and 2 are unrelated to each other). -/
def exHeapFin3 : HBHeap (Fin 3) :=
  { root := some 0,
    nodes := fun _ => true,
    parent := fun n => if n = 0 then none else some 0,
    left := fun n => if n = 0 then some 1 else none,
    right := fun n => if n = 0 then some 2 else none }

/-- Two modules a (10×10) and b (20×10). -/
def exMsC9 : List (String × PModule) :=
  [("a", mkModule "a" 10 10), ("b", mkModule "b" 20 10)]

/-- An HB*-tree over `exMsC9` whose current structure (root b with left child
a) differs from the deterministic initial chain (root a with left child b),
as after an accepted swap perturbation. -/
def exHBOrig : HBState :=
  { modules := exMsC9,
    tree := HBTree.node "b" (HBTree.node "a" HBTree.nil HBTree.nil) HBTree.nil,
    horizontalContour := [],
    verticalContour := [],
    totalArea := 300,
    isPacked := true }

/-- Best cost carried by a `processTemperature` outcome (thrown or normal). -/
def exceptBest : Except SAState (SAState × Bool) → Int
  | Except.error st => st.bestCost
  | Except.ok (st, _) => st.bestCost

/-! ## Lemmas and claim theorems -/

/-- C10: `Module::setPosition(x, y)` stores `max(0, x)` and `max(0, y)`, and
after any sequence of Module mutators starting from the constructor the stored
coordinates are non-negative. -/
theorem C10_setPosition_clamps_nonneg :
    (∀ (m : PModule) (x y : Int),
        (m.setPosition x y).x = max 0 x ∧ (m.setPosition x y).y = max 0 y) ∧
    (∀ (name : String) (w h : Int) (ops : List ModuleOp),
        0 ≤ (runModuleOps ops (mkModule name w h)).x ∧
        0 ≤ (runModuleOps ops (mkModule name w h)).y) := by
  constructor
  · intro m x y
    exact ⟨rfl, rfl⟩
  · intro name w h ops
    have key : ∀ (ops : List ModuleOp) (m : PModule), 0 ≤ m.x → 0 ≤ m.y →
        0 ≤ (runModuleOps ops m).x ∧ 0 ≤ (runModuleOps ops m).y := by
      intro ops
      induction ops with
      | nil => intro m hx hy; exact ⟨hx, hy⟩
      | cons op rest ih =>
        intro m hx hy
        cases op with
        | rotate => exact ih _ hx hy
        | setRotation b => exact ih _ hx hy
        | setPosition x y => exact ih _ (le_max_left 0 x) (le_max_left 0 y)
    exact key ops _ le_rfl le_rfl

/-- C2: the axis of `exASFLocked` was locked (at 4, the average representative
width), the pack succeeds, and `pack()` overwrites the stored locked axis with
the centroid of representative centers (2) — contradicting the claim that a
successful pack leaves the locked axis unchanged. -/
theorem C2_pack_overwrites_locked_axis :
    exASFLocked.axisPositionLocked = true ∧
    exASFLocked.symmetryAxisPosition = 4 ∧
    (asfPack 10 exASFLocked).1 = true ∧
    (asfPack 10 exASFLocked).2.symmetryAxisPosition = 2 ∧
    (asfPack 10 exASFLocked).2.symmetryAxisPosition ≠ exASFLocked.symmetryAxisPosition := by
  refine ⟨by with_unfolding_all rfl, by with_unfolding_all rfl, by with_unfolding_all rfl,
    by with_unfolding_all rfl, by with_unfolding_all decide⟩

/-- C7 (counterexample): module A of the pair (A, B) is not a representative,
yet `rotateModule("A")` returns true, and it also flips the rotation flag of
the partner B — refuting both the must-target-a-representative clause and the
m-only clause of the claim. -/
theorem C7_counterexample :
    isRepresentativeB exASFLocked.symmetryGroup "A" = false ∧
    (asfRotateModule exASFLocked "A").1 = true ∧
    List.lookup "B" (asfRotateModule exASFLocked "A").2.modules =
      some ((mkModule "B" 4 10).rotate) ∧
    ((mkModule "B" 4 10).rotate).isRotated ≠ (mkModule "B" 4 10).isRotated := by
  refine ⟨by decide, by decide, by decide, by decide⟩

/-- C3 (counterexample): with initial area 100, the claim that a returning
`solve()` never ends with a worse-than-initial placement fails in the
fallback branches: an SA result packing to 150 (worse but within 2×) makes the
solver re-pack the initial clone, whose placement (bounding box 130 here) is
what is kept while 100 is reported; an SA result packing to 300 (beyond 2×)
makes the re-packed clone area (150) both the report and the placement. -/
theorem C3_counterexample :
    ((solveFinalize 100 150 130).1 = 100 ∧ (solveFinalize 100 150 130).2 = 130 ∧
      100 < (solveFinalize 100 150 130).2) ∧
    ((solveFinalize 100 300 150).1 = 150 ∧ 100 < (solveFinalize 100 300 150).1) := by
  decide

/-- C3 (amended): whenever the SA result packs to a positive area of at most
twice the initial area, the reported final area never exceeds the initial
area; outside that window (and for the actually held placement) the solver
falls back to the re-packed initial clone with no further check. -/
theorem C3_amended (i sa c : Int) (h1 : 0 < sa) (h2 : sa ≤ 2 * i) :
    (solveFinalize i sa c).1 ≤ i := by
  unfold solveFinalize
  split_ifs with hA hB <;> simp <;> omega

/-- Witness for `C3_amended` at `(100, 150, 130)`. -/
theorem C3_amended_witness :
    (0 : Int) < 150 ∧ (150 : Int) ≤ 2 * 100 ∧ (solveFinalize 100 150 130).1 ≤ 100 :=
  ⟨by decide, by decide, C3_amended 100 150 130 (by decide) (by decide)⟩

/-- C9: `HBStarTree::clone` copies every module record (name, dimensions,
rotation flag, position) and the cached `totalArea`/`isPacked`, but rebuilds
the deterministic initial tree instead of copying the current structure: the
clone's tree depends only on the module set, a concrete perturbed tree
differs from its clone's tree, and re-packing clone and original yields
different coordinates for module "a". -/
theorem C9_clone_rebuilds_initial_tree :
    (∀ s : HBState,
        (hbClone s).modules = s.modules ∧ (hbClone s).totalArea = s.totalArea ∧
        (hbClone s).isPacked = s.isPacked ∧
        (hbClone s).tree = constructInitialTree s.modules) ∧
    (∀ s t : HBState, s.modules = t.modules → (hbClone s).tree = (hbClone t).tree) ∧
    (hbClone exHBOrig).tree ≠ exHBOrig.tree ∧
    List.lookup "a" (hbPack 5 (hbClone exHBOrig)).2.modules ≠
      List.lookup "a" (hbPack 5 exHBOrig).2.modules := by
  refine ⟨fun s => ⟨rfl, rfl, rfl, rfl⟩, ?_, by with_unfolding_all decide,
    by with_unfolding_all decide⟩
  intro s t h
  simp only [hbClone, h]

/-- C6 (counterexample): in the tree `root a, a.left = b`, swapping a and b
twice does not restore the structure: the source re-tests
`node1->getLeftChild() == node2` after detaching node2, so the child comes
back as a right child — after the double swap, b is the right child of a
instead of its left child. -/
theorem C6_counterexample :
    (hbSwapNodes exHeapC6 "a" "b").1 = true ∧
    (hbSwapNodes (hbSwapNodes exHeapC6 "a" "b").2 "a" "b").1 = true ∧
    (hbSwapNodes (hbSwapNodes exHeapC6 "a" "b").2 "a" "b").2.left "a" ≠
      exHeapC6.left "a" ∧
    (hbSwapNodes (hbSwapNodes exHeapC6 "a" "b").2 "a" "b").2.left "a" = none ∧
    (hbSwapNodes (hbSwapNodes exHeapC6 "a" "b").2 "a" "b").2.right "a" = some "b" ∧
    exHeapC6.left "a" = some "b" := by
  refine ⟨by decide, by decide, by decide, by decide, by decide, by decide⟩

/-- C5 (counterexample): the sequence `addSegment(0,5,3); addSegment(10,15,3);
addSegment(5,10,3)` ends in `[(0,10,3), (10,15,3)]` — two abutting segments of
equal height (the third add extends the left neighbour and returns before
`mergeNodes()`), refuting the claimed invariant for arbitrary operation
sequences. -/
theorem C5_counterexample :
    runContourOps [ContourOp.add 0 5 3, ContourOp.add 10 15 3, ContourOp.add 5 10 3] [] =
      [⟨0, 10, 3⟩, ⟨10, 15, 3⟩] ∧
    claimedContourInv
      (runContourOps [ContourOp.add 0 5 3, ContourOp.add 10 15 3, ContourOp.add 5 10 3] []) =
      false := by
  refine ⟨by decide, by decide⟩

/-- The best cost tracked by `processTemperature` never rises (it is updated
only under `if (costAfter < bestCost)`), on the normal and on the
thrown-timeout path alike. -/
theorem processTemperature_best_le (mpt : Nat) (o : SAOracle) :
    ∀ (remaining : Nat) (improved : Bool) (st : SAState),
      exceptBest (processTemperature mpt o remaining improved st) ≤ st.bestCost := by
  intro remaining
  induction remaining with
  | zero => intro improved st; exact le_refl _
  | succ rem ih =>
    intro improved st
    unfold processTemperature
    simp only []
    split_ifs <;>
      first
        | exact le_refl _
        | exact ih _ _
        | (rename_i hBest; exact le_trans (ih _ _) (le_of_lt hBest))

/-- The best cost tracked across `run`'s temperature loop never rises. -/
theorem saRun_best_le (p : SAParams) (o : SAOracle) :
    ∀ (fuel : Nat) (t : ℚ) (consec : Nat) (st : SAState),
      (saRun p o fuel t consec st).bestCost ≤ st.bestCost := by
  intro fuel
  induction fuel with
  | zero => intro t consec st; exact le_refl _
  | succ f ih =>
    intro t consec st
    unfold saRun
    simp only []
    have hPT := processTemperature_best_le p.movesPerTemperature o
      p.movesPerTemperature false { st with checks := st.checks + 1 }
    split_ifs with hT hTo hStag
    · exact le_refl _
    · exact le_refl _
    all_goals
      cases hE : processTemperature p.movesPerTemperature o p.movesPerTemperature false
          { st with checks := st.checks + 1 } with
      | error st2 => rw [hE] at hPT; simp only [hE]; exact hPT
      | ok r =>
        obtain ⟨st2, improved⟩ := r
        rw [hE] at hPT
        simp only [hE]
        split_ifs <;> exact le_trans (ih _ _ _) hPT

/-- C4: for every sampled behaviour — in particular whenever `hasTimedOut()`
becomes true at any cooperative check, which makes `run()` return the tracked
best solution either at the loop top or through the caught `runtime_error`
(both modelled inside `saRun`, which is total and always returns the tracked
state) — the best cost reported after the run is at most the cost of the
initial solution, at which `bestCost` starts. -/
theorem C4_timeout_returns_best_le_initial (p : SAParams) (o : SAOracle)
    (fuel : Nat) (t : ℚ) (consec : Nat) (initialCost : Int) :
    (saRun p o fuel t consec (saInit initialCost)).bestCost ≤ initialCost :=
  saRun_best_le p o fuel t consec (saInit initialCost)

/-- C8: `ASFBStarTree::swapNodes` returns false — before any mutation, so with
the state exactly as given — whenever a node is not found (including
non-representative names, for which `findNode` returns null) or exactly one of
the two modules is self-symmetric. -/
theorem C8_swap_reject_unchanged (fuel : Nat) (s : ASFState) (n1 n2 : String)
    (h : asfFindNode s n1 = none ∨ asfFindNode s n2 = none ∨
         isOnBoundary s n1 ≠ isOnBoundary s n2) :
    asfSwapNodes fuel s n1 n2 = (false, s) := by
  unfold asfSwapNodes
  rcases hf1 : asfFindNode s n1 with _ | v1 <;>
    rcases hf2 : asfFindNode s n2 with _ | v2 <;>
      simp only []
  rcases h with h | h | h
  · rw [hf1] at h; exact absurd h (by simp)
  · rw [hf2] at h; exact absurd h (by simp)
  · cases hb1 : isOnBoundary s n1 <;> cases hb2 : isOnBoundary s n2 <;>
      simp_all

/-- Witness for `C8_swap_reject_unchanged`: swapping the pair representative B
with the self-symmetric S is rejected and leaves the state untouched. -/
theorem C8_swap_reject_unchanged_witness :
    isOnBoundary exASFSwap "B" ≠ isOnBoundary exASFSwap "S" ∧
    asfSwapNodes 3 exASFSwap "B" "S" = (false, exASFSwap) :=
  ⟨by decide, C8_swap_reject_unchanged 3 exASFSwap "B" "S" (Or.inr (Or.inr (by decide)))⟩

/-- `List.lookup` after an in-place `updateMod`: the looked-up entry is mapped
exactly when its key is the updated one. -/
theorem lookup_updateMod (ms : List (String × PModule)) (n k : String) (f : PModule → PModule) :
    List.lookup k (updateMod ms n f) =
      (List.lookup k ms).map (fun m => if k = n then f m else m) := by
  induction ms with
  | nil => rfl
  | cons a rest ih =>
    obtain ⟨an, am⟩ := a
    by_cases h1 : an = n
    · have hhead : updateMod ((an, am) :: rest) n f = (an, f am) :: updateMod rest n f := by
        simp [updateMod, h1]
      rw [hhead]
      by_cases h2 : k = an
      · have hb : (k == an) = true := by simp [h2]
        simp [List.lookup, hb, h2, h1]
      · have hb : (k == an) = false := by simp [h2]
        simp [List.lookup, hb, ih]
    · have hhead : updateMod ((an, am) :: rest) n f = (an, am) :: updateMod rest n f := by
        simp [updateMod, h1]
      rw [hhead]
      by_cases h2 : k = an
      · have hb : (k == an) = true := by simp [h2]
        have hkn : ¬ k = n := by rw [h2]; exact h1
        simp [List.lookup, hb, hkn]
      · have hb : (k == an) = false := by simp [h2]
        simp [List.lookup, hb, ih]

/-- In a duplicate-free pair-name list, the two members of a pair differ. -/
theorem pairNames_ne (l : List (String × String))
    (hnd : (l.foldr (fun p acc => p.1 :: p.2 :: acc) []).Nodup) :
    ∀ a b, (a, b) ∈ l → a ≠ b := by
  induction l with
  | nil => intro a b h; exact absurd h (by simp)
  | cons p rest ih =>
    intro a b h
    simp only [List.foldr_cons, List.nodup_cons] at hnd
    rcases List.mem_cons.mp h with h | h
    · intro hab
      have h1 : p.1 = a := by rw [← h]
      have h2 : p.2 = b := by rw [← h]
      exact hnd.1 (by simp [h1, h2, hab])
    · exact ih hnd.2.2 a b h

/-- A well-formed group has no degenerate pair. -/
theorem pair_mem_ne (g : SymmetryGroup) (hwf : groupWellFormed g = true) :
    ∀ a b, (a, b) ∈ g.symmetryPairs → a ≠ b := by
  apply pairNames_ne
  have := of_decide_eq_true hwf
  exact List.Nodup.of_append_left (by simpa [pairNames] using this)

/-- In a well-formed group, no module is its own pair partner. -/
theorem symmetricPairOf_ne_self (g : SymmetryGroup) (hwf : groupWellFormed g = true)
    (n : String) : symmetricPairOf g n ≠ some n := by
  intro hq
  unfold symmetricPairOf at hq
  cases hfind : g.symmetryPairs.reverse.find? (fun p => p.1 = n || p.2 = n) with
  | none => rw [hfind] at hq; exact absurd hq (by simp)
  | some p =>
    rw [hfind] at hq
    have hmem : p ∈ g.symmetryPairs := List.mem_reverse.mp (List.mem_of_find?_eq_some hfind)
    have hp : (p.1 = n ∨ p.2 = n) := by
      have := List.find?_some hfind
      simpa using this
    have hne := pair_mem_ne g hwf p.1 p.2 (by simpa using hmem)
    simp only [Option.some.injEq] at hq
    rcases hp with h | h <;> split_ifs at hq <;> simp_all

/-- C7 (amended): `rotateModule(m)` returns false exactly when m is missing
from the group's module map — it does not require a representative; on success
it flips the rotation flag of m and (when m is paired) of its partner, leaving
every other module untouched, and `rotate` itself changes no coordinate (the
effective width/height swap is the flag flip). -/
theorem C7_rotate_amended (s : ASFState) (n : String)
    (hwf : groupWellFormed s.symmetryGroup = true) :
    (List.lookup n s.modules = none → asfRotateModule s n = (false, s)) ∧
    (∀ m0, List.lookup n s.modules = some m0 →
      (asfRotateModule s n).1 = true ∧
      (∀ k mk, List.lookup k s.modules = some mk →
        List.lookup k (asfRotateModule s n).2.modules =
          some (if k = n ∨ symmetricPairOf s.symmetryGroup n = some k
                then mk.rotate else mk)) ∧
      (∀ m : PModule, m.rotate.x = m.x ∧ m.rotate.y = m.y ∧
        m.rotate.getWidth = m.getHeight ∧ m.rotate.getHeight = m.getWidth)) := by
  constructor
  · intro h
    simp [asfRotateModule, h]
  · intro m0 hm
    refine ⟨by simp [asfRotateModule, hm], ?_, ?_⟩
    · intro k mk hk
      cases hq : symmetricPairOf s.symmetryGroup n with
      | none =>
        simp only [asfRotateModule, hm, hq]
        rw [lookup_updateMod, hk]
        by_cases h2 : k = n <;> simp [h2, hq]
      | some q =>
        have hqn : q ≠ n := by
          intro hh
          exact symmetricPairOf_ne_self s.symmetryGroup hwf n (hh ▸ hq)
        simp only [asfRotateModule, hm, hq]
        rw [lookup_updateMod, lookup_updateMod, hk]
        by_cases h2 : k = n
        · subst h2
          simp [Ne.symm hqn]
        · by_cases h3 : k = q
          · subst h3
            simp [h2, hq]
          · simp [h2, hq, Ne.symm h3]
            exact fun hh => absurd hh h3
    · intro m
      refine ⟨rfl, rfl, ?_, ?_⟩ <;>
        simp [PModule.rotate, PModule.getWidth, PModule.getHeight] <;>
        cases m.isRotated <;> simp

/-- Witness for `C7_rotate_amended` at the pair (A, B): rotating the
non-representative A succeeds and rotates the partner B as well. -/
theorem C7_rotate_amended_witness :
    groupWellFormed exASFLocked.symmetryGroup = true ∧
    List.lookup "A" exASFLocked.modules = some (mkModule "A" 3 10) ∧
    (asfRotateModule exASFLocked "A").1 = true ∧
    List.lookup "B" (asfRotateModule exASFLocked "A").2.modules =
      some (if ("B" : String) = "A" ∨ symmetricPairOf exASFLocked.symmetryGroup "A" = some "B"
            then (mkModule "B" 4 10).rotate else mkModule "B" 4 10) :=
  ⟨by decide, by decide,
    ((C7_rotate_amended exASFLocked "A" (by decide)).2 (mkModule "A" 3 10) (by decide)).1,
    (((C7_rotate_amended exASFLocked "A" (by decide)).2 (mkModule "A" 3 10) (by decide)).2.1
      "B" (mkModule "B" 4 10) (by decide))⟩

theorem contiguous_cons (a : Seg) (l : List Seg) (hl : contiguous l = true)
    (hj : l = [] ∨ firstStart l = a.stop) : contiguous (a :: l) = true := by
  cases l with
  | nil => rfl
  | cons b t =>
    rcases hj with hj | hj
    · exact absurd hj (by simp)
    · simp only [contiguous, Bool.and_eq_true]
      exact ⟨by simp [firstStart] at hj; simp [hj], hl⟩

theorem contiguous_of_cons (a : Seg) (l : List Seg) (hc : contiguous (a :: l) = true) :
    contiguous l = true := by
  cases l with
  | nil => rfl
  | cons b t =>
    simp only [contiguous, Bool.and_eq_true] at hc
    exact hc.2

theorem contiguous_junction (a : Seg) (l : List Seg) (hc : contiguous (a :: l) = true)
    (hne : l ≠ []) : firstStart l = a.stop := by
  cases l with
  | nil => exact absurd rfl hne
  | cons b t =>
    simp only [contiguous, Bool.and_eq_true, decide_eq_true_eq] at hc
    simp [firstStart, hc.1]

theorem noAbutEq_cons (a : Seg) (l : List Seg) (hl : noAbutEq l = true)
    (hj : l = [] ∨ ¬(a.stop = firstStart l ∧ a.height = firstHeight l)) :
    noAbutEq (a :: l) = true := by
  cases l with
  | nil => rfl
  | cons b t =>
    rcases hj with hj | hj
    · exact absurd hj (by simp)
    · simp only [noAbutEq, Bool.and_eq_true]
      refine ⟨?_, hl⟩
      simp only [firstStart, firstHeight] at hj
      simp only [Bool.not_eq_eq_eq_not, Bool.not_true, Bool.and_eq_false_iff]
      by_cases h1 : a.stop = b.start
      · right
        simp only [decide_eq_false_iff_not]
        intro h2
        exact hj ⟨h1, h2⟩
      · left
        simp [h1]

theorem noAbutEq_of_cons (a : Seg) (l : List Seg) (h : noAbutEq (a :: l) = true) :
    noAbutEq l = true := by
  cases l with
  | nil => rfl
  | cons b t =>
    simp only [noAbutEq, Bool.and_eq_true] at h
    exact h.2

theorem lastStop_cons (a : Seg) (l : List Seg) (hne : l ≠ []) :
    lastStop (a :: l) = lastStop l := by
  cases l with
  | nil => exact absurd rfl hne
  | cons b t => simp [lastStop, List.getLast?]

theorem lastStop_append (l1 l2 : List Seg) (hne : l2 ≠ []) :
    lastStop (l1 ++ l2) = lastStop l2 := by
  induction l1 with
  | nil => rfl
  | cons a t ih =>
    rw [List.cons_append, lastStop_cons a (t ++ l2) (by simp [hne]), ih]

theorem getLast?_stop (l : List Seg) (p : Seg) (h : l.getLast? = some p) :
    lastStop l = p.stop := by
  simp [lastStop, h]

theorem contiguous_append_parts (l1 l2 : List Seg)
    (h : contiguous (l1 ++ l2) = true) :
    contiguous l1 = true ∧ contiguous l2 = true ∧
      (l1 = [] ∨ l2 = [] ∨ lastStop l1 = firstStart l2) := by
  induction l1 with
  | nil => exact ⟨rfl, h, Or.inl rfl⟩
  | cons a t ih =>
    rw [List.cons_append] at h
    have htail : contiguous (t ++ l2) = true := contiguous_of_cons _ _ h
    obtain ⟨h1, h2, h3⟩ := ih htail
    cases t with
    | nil =>
      refine ⟨rfl, h2, ?_⟩
      cases l2 with
      | nil => exact Or.inr (Or.inl rfl)
      | cons c u =>
        refine Or.inr (Or.inr ?_)
        have := contiguous_junction a (c :: u) (by simpa using h) (by simp)
        simp [lastStop, List.getLast?, this]
    | cons b u =>
      have hj : firstStart (b :: (u ++ l2)) = a.stop :=
        contiguous_junction a (b :: (u ++ l2)) (by simpa using h) (by simp)
      refine ⟨contiguous_cons a (b :: u) h1 (Or.inr (by simpa [firstStart] using hj)), h2, ?_⟩
      rcases h3 with h3 | h3 | h3
      · exact absurd h3 (by simp)
      · exact Or.inr (Or.inl h3)
      · refine Or.inr (Or.inr ?_)
        rw [lastStop_cons a (b :: u) (by simp), h3]

theorem contiguous_append_of_parts (l1 l2 : List Seg)
    (h1 : contiguous l1 = true) (h2 : contiguous l2 = true)
    (hj : l1 = [] ∨ l2 = [] ∨ lastStop l1 = firstStart l2) :
    contiguous (l1 ++ l2) = true := by
  induction l1 with
  | nil => simpa using h2
  | cons a t ih =>
    rcases hj with hj | hj | hj
    · exact absurd hj (by simp)
    · subst hj; simpa using h1
    · cases t with
      | nil =>
        cases l2 with
        | nil => simpa using h1
        | cons c u =>
          rw [List.cons_append]
          refine contiguous_cons a (c :: u) h2 (Or.inr ?_)
          simpa [lastStop, List.getLast?] using hj.symm
      | cons b u =>
        rw [List.cons_append]
        refine contiguous_cons a ((b :: u) ++ l2)
          (ih (contiguous_of_cons _ _ h1) (Or.inr (Or.inr (by
            rw [← lastStop_cons a (b :: u) (by simp)]; exact hj)))) (Or.inr ?_)
        have := contiguous_junction a (b :: u) h1 (by simp)
        simpa [firstStart] using this

theorem mergeNodes_head (l : List Seg) :
    firstStart (mergeNodes l) = firstStart l ∧
    firstHeight (mergeNodes l) = firstHeight l ∧
    (l ≠ [] → mergeNodes l ≠ []) := by
  induction l using mergeNodes.induct with
  | case1 => simp [mergeNodes]
  | case2 a => simp [mergeNodes, firstStart, firstHeight]
  | case3 a b rest hcond ih =>
    rw [mergeNodes, if_pos hcond]
    refine ⟨?_, ?_, fun _ => ih.2.2 (by simp)⟩
    · rw [ih.1]; simp [firstStart]
    · rw [ih.2.1]; simp [firstHeight, hcond.2]
  | case4 a b rest hcond ih =>
    rw [mergeNodes, if_neg hcond]
    simp [firstStart, firstHeight]

theorem mergeNodes_lastStop (l : List Seg) : lastStop (mergeNodes l) = lastStop l := by
  induction l using mergeNodes.induct with
  | case1 => rw [mergeNodes]
  | case2 a => rw [mergeNodes]
  | case3 a b rest hcond ih =>
    rw [mergeNodes, if_pos hcond, ih]
    cases rest with
    | nil => simp [lastStop, List.getLast?]
    | cons c u =>
      rw [lastStop_cons _ (c :: u) (by simp), lastStop_cons a (b :: c :: u) (by simp),
        lastStop_cons b (c :: u) (by simp)]
  | case4 a b rest hcond ih =>
    rw [mergeNodes, if_neg hcond]
    rw [lastStop_cons a (mergeNodes (b :: rest)) ((mergeNodes_head (b :: rest)).2.2 (by simp)),
      ih, lastStop_cons a (b :: rest) (by simp)]

theorem mergeNodes_all_valid (l : List Seg) (h : l.all validSeg = true) :
    (mergeNodes l).all validSeg = true := by
  induction l using mergeNodes.induct with
  | case1 => rw [mergeNodes]; exact h
  | case2 a => rw [mergeNodes]; exact h
  | case3 a b rest hcond ih =>
    rw [mergeNodes, if_pos hcond]
    apply ih
    simp only [List.all_cons, Bool.and_eq_true] at h ⊢
    refine ⟨?_, h.2.2⟩
    simp only [validSeg, decide_eq_true_eq] at h ⊢
    calc a.start < a.stop := h.1
    _ = b.start := hcond.1
    _ < b.stop := h.2.1
  | case4 a b rest hcond ih =>
    rw [mergeNodes, if_neg hcond]
    simp only [List.all_cons, Bool.and_eq_true] at h ⊢
    exact ⟨h.1, ih (by simp [h.2.1, h.2.2])⟩

theorem mergeNodes_contiguous (l : List Seg) (h : contiguous l = true) :
    contiguous (mergeNodes l) = true := by
  induction l using mergeNodes.induct with
  | case1 => rw [mergeNodes]; rfl
  | case2 a => rw [mergeNodes]; rfl
  | case3 a b rest hcond ih =>
    rw [mergeNodes, if_pos hcond]
    apply ih
    have hbt : contiguous (b :: rest) = true := contiguous_of_cons _ _ h
    apply contiguous_cons _ _ (contiguous_of_cons _ _ hbt)
    cases rest with
    | nil => exact Or.inl rfl
    | cons c u => exact Or.inr (contiguous_junction b (c :: u) hbt (by simp))
  | case4 a b rest hcond ih =>
    rw [mergeNodes, if_neg hcond]
    have hbt : contiguous (b :: rest) = true := contiguous_of_cons _ _ h
    apply contiguous_cons _ _ (ih hbt)
    refine Or.inr ?_
    rw [(mergeNodes_head (b :: rest)).1]
    exact contiguous_junction a (b :: rest) h (by simp)

theorem mergeNodes_noAbutEq (l : List Seg) : noAbutEq (mergeNodes l) = true := by
  induction l using mergeNodes.induct with
  | case1 => rw [mergeNodes]; rfl
  | case2 a => rw [mergeNodes]; rfl
  | case3 a b rest hcond ih =>
    rw [mergeNodes, if_pos hcond]
    exact ih
  | case4 a b rest hcond ih =>
    rw [mergeNodes, if_neg hcond]
    apply noAbutEq_cons _ _ ih
    refine Or.inr ?_
    rw [(mergeNodes_head (b :: rest)).1, (mergeNodes_head (b :: rest)).2.1]
    simpa [firstStart, firstHeight] using hcond

theorem coverLoop_spec (e h : Int) :
    ∀ (rest : List Seg) (c : Seg) (s : Int),
      (c :: rest).all validSeg = true → contiguous (c :: rest) = true →
      c.start ≤ s → s < c.stop → e ≤ lastStop (c :: rest) →
      (coverLoop s e h (c :: rest)).all validSeg = true ∧
      contiguous (coverLoop s e h (c :: rest)) = true ∧
      firstStart (coverLoop s e h (c :: rest)) = c.start ∧
      lastStop (coverLoop s e h (c :: rest)) = lastStop (c :: rest) ∧
      coverLoop s e h (c :: rest) ≠ [] := by
  intro rest
  induction rest with
  | nil =>
    intro c s hv hc hles hlt hcov
    by_cases hse : s < e
    · by_cases hec : e ≥ c.stop
      · rw [coverLoop, if_pos hse, if_pos hec]
        rw [coverLoop]
        refine ⟨?_, rfl, by simp [firstStart], by simp [lastStop], by simp⟩
        simp only [List.all_cons, List.all_nil, Bool.and_eq_true, validSeg,
          decide_eq_true_eq] at hv ⊢
        exact ⟨hv.1, trivial⟩
      · rw [coverLoop, if_pos hse, if_neg hec]
        push_neg at hec
        refine ⟨?_, ?_, by simp [firstStart], ?_, by simp⟩
        · simp only [List.all_cons, List.all_nil, Bool.and_eq_true, validSeg,
            decide_eq_true_eq]
          refine ⟨?_, ?_, ?_⟩ <;> first | trivial | omega
        · refine contiguous_cons _ _ ?_ (Or.inr (by simp [firstStart]))
          rfl
        · simp [lastStop, List.getLast?]
    · rw [coverLoop, if_neg hse]
      exact ⟨hv, hc, rfl, rfl, by simp⟩
  | cons c2 rest2 ih =>
    intro c s hv hc hles hlt hcov
    by_cases hse : s < e
    · by_cases hec : e ≥ c.stop
      · rw [coverLoop, if_pos hse, if_pos hec]
        have hvt : (c2 :: rest2).all validSeg = true := by
          simp only [List.all_cons, Bool.and_eq_true] at hv
          simp [hv.2.1, hv.2.2]
        have hct : contiguous (c2 :: rest2) = true := contiguous_of_cons _ _ hc
        have hj : c2.start = c.stop := by
          have := contiguous_junction c (c2 :: rest2) hc (by simp)
          simpa [firstStart] using this
        have hv2 : c2.start < c2.stop := by
          simp only [List.all_cons, Bool.and_eq_true, validSeg, decide_eq_true_eq] at hv
          exact hv.2.1
        have hcov2 : e ≤ lastStop (c2 :: rest2) := by
          rwa [lastStop_cons c (c2 :: rest2) (by simp)] at hcov
        obtain ⟨r1, r2, r3, r4, r5⟩ :=
          ih c2 c.stop hvt hct (le_of_eq hj) (by omega) hcov2
        refine ⟨?_, ?_, by simp [firstStart], ?_, by simp⟩
        · simp only [List.all_cons, Bool.and_eq_true] at hv ⊢
          refine ⟨?_, r1⟩
          simpa [validSeg] using hv.1
        · exact contiguous_cons _ _ r2 (Or.inr (by rw [r3]; simp [hj]))
        · rw [lastStop_cons _ _ r5, r4, lastStop_cons c (c2 :: rest2) (by simp)]
      · rw [coverLoop, if_pos hse, if_neg hec]
        push_neg at hec
        simp only [List.all_cons, Bool.and_eq_true, validSeg, decide_eq_true_eq] at hv
        refine ⟨?_, ?_, by simp [firstStart], ?_, by simp⟩
        · simp only [List.all_cons, Bool.and_eq_true, validSeg, decide_eq_true_eq]
          refine ⟨by omega, by omega, by simp [hv.2.1, hv.2.2]⟩
        · refine contiguous_cons _ _ ?_ (Or.inr (by simp [firstStart]))
          refine contiguous_cons _ _ (contiguous_of_cons _ _ hc) (Or.inr ?_)
          have := contiguous_junction c (c2 :: rest2) hc (by simp)
          simpa [firstStart] using this
        · rw [lastStop_cons _ (⟨e, c.stop, c.height⟩ :: c2 :: rest2) (by simp),
            lastStop_cons _ (c2 :: rest2) (by simp),
            lastStop_cons c (c2 :: rest2) (by simp)]
    · rw [coverLoop, if_neg hse]
      exact ⟨hv, hc, rfl, rfl, by simp⟩

theorem dropWhile_head_false {α : Type} (p : α → Bool) :
    ∀ (l : List α) (c : α) (r : List α), l.dropWhile p = c :: r → p c = false := by
  intro l
  induction l with
  | nil => intro c r hc; simp [List.dropWhile] at hc
  | cons a t ih =>
    intro c r hc
    rw [List.dropWhile_cons] at hc
    by_cases hp : p a = true
    · rw [if_pos hp] at hc; exact ih c r hc
    · rw [if_neg hp] at hc
      injection hc with h1 h2
      subst h1
      simpa using hp

theorem lastStop_mem (a : Seg) (t : List Seg) :
    ∃ x ∈ a :: t, x.stop = lastStop (a :: t) := by
  refine ⟨(a :: t).getLast (by simp), List.getLast_mem _, ?_⟩
  rw [lastStop, List.getLast?_eq_getLast (a :: t) (by simp)]

theorem addSegment_wf (l : List Seg) (s e h : Int)
    (hwf : wfContour l = true) (hcov : s ≥ e ∨ inCoverage l s e = true) :
    wfContour (addSegment l s e h) = true := by
  by_cases hse : s ≥ e
  · rw [addSegment.eq_def, if_pos hse]; exact hwf
  · rw [addSegment.eq_def, if_neg hse]
    replace hcov : inCoverage l s e = true := hcov.resolve_left hse
    simp only [wfContour, Bool.and_eq_true] at hwf
    obtain ⟨⟨hv, hc⟩, hn⟩ := hwf
    rcases l with _ | ⟨a, t⟩
    · show wfContour [⟨s, e, h⟩] = true
      simp [wfContour, validSeg, contiguous, noAbutEq]
      omega
    · simp only [inCoverage, Bool.and_eq_true, decide_eq_true_eq] at hcov
      rcases hdrop : (a :: t).dropWhile (fun n => decide (n.stop ≤ s)) with _ | ⟨c, restTail⟩
      · exfalso
        obtain ⟨x, hx, hxs⟩ := lastStop_mem a t
        have h1 := List.dropWhile_eq_nil_iff.mp hdrop x hx
        simp only [decide_eq_true_eq] at h1
        omega
      · simp only [hdrop]
        have hsplit : (a :: t).takeWhile (fun n => decide (n.stop ≤ s)) ++ c :: restTail =
            a :: t := by
          rw [← hdrop]; exact List.takeWhile_append_dropWhile _ _
        have hcstop : s < c.stop := by
          have h1 := dropWhile_head_false _ _ _ _ hdrop
          simp only [decide_eq_false_iff_not] at h1
          omega
        by_cases hlt : s < c.start
        · exfalso
          rcases hpre : (a :: t).takeWhile (fun n => decide (n.stop ≤ s)) with _ | ⟨q, qs⟩
          · rw [hpre, List.nil_append] at hsplit
            have hca : c = a := (List.cons.injEq _ _ _ _ ▸ hsplit).1
            subst hca
            have hfa : firstStart (c :: t) = c.start := rfl
            omega
          · rw [hpre] at hsplit
            have hc2 : contiguous ((q :: qs) ++ c :: restTail) = true := by
              rw [hsplit]; exact hc
            obtain ⟨-, -, hj⟩ := contiguous_append_parts _ _ hc2
            rcases hj with hj | hj | hj
            · exact absurd hj (by simp)
            · exact absurd hj (by simp)
            · obtain ⟨x, hx, hxs⟩ := lastStop_mem q qs
              rw [← hpre] at hx
              have hxp := List.mem_takeWhile_imp hx
              simp only [decide_eq_true_eq] at hxp
              have hfc : firstStart (c :: restTail) = c.start := rfl
              omega
        · rw [if_neg hlt]
          push_neg at hlt
          have hv2 : ((a :: t).takeWhile (fun n => decide (n.stop ≤ s))).all validSeg = true ∧
              (c :: restTail).all validSeg = true := by
            rw [← hsplit] at hv
            simpa [List.all_append, Bool.and_eq_true] using hv
          have hc2 : contiguous
              ((a :: t).takeWhile (fun n => decide (n.stop ≤ s)) ++ c :: restTail) = true := by
            rw [hsplit]; exact hc
          obtain ⟨hcPre, hcTail, hj⟩ := contiguous_append_parts _ _ hc2
          have hcovTail : e ≤ lastStop (c :: restTail) := by
            have h1 := hcov.2
            rw [← hsplit, lastStop_append _ _ (by simp)] at h1
            exact h1
          obtain ⟨r1, r2, r3, r4, r5⟩ :=
            coverLoop_spec e h restTail c s hv2.2 hcTail hlt hcstop hcovTail
          simp only [wfContour, Bool.and_eq_true]
          refine ⟨⟨?_, ?_⟩, mergeNodes_noAbutEq _⟩
          · apply mergeNodes_all_valid
            simp only [List.all_append, Bool.and_eq_true]
            exact ⟨hv2.1, r1⟩
          · apply mergeNodes_contiguous
            apply contiguous_append_of_parts _ _ hcPre r2
            rcases hj with hj | hj | hj
            · exact Or.inl hj
            · exact absurd hj (by simp)
            · refine Or.inr (Or.inr ?_)
              rw [hj, r3]
              rfl

theorem contiguous_all_le :
    ∀ (a : Seg) (rest : List Seg), (a :: rest).all validSeg = true →
      contiguous (a :: rest) = true → ∀ x ∈ rest, a.stop ≤ x.start := by
  intro a rest
  induction rest generalizing a with
  | nil => intro _ _ x hx; simp at hx
  | cons b u ih =>
    intro hv hc x hx
    simp only [contiguous, Bool.and_eq_true, decide_eq_true_eq] at hc
    have hvb : (b :: u).all validSeg = true := by
      simp only [List.all_cons, Bool.and_eq_true] at hv ⊢
      exact ⟨hv.2.1, hv.2.2⟩
    have hb : b.start < b.stop := by
      simp only [List.all_cons, Bool.and_eq_true, validSeg, decide_eq_true_eq] at hv
      exact hv.2.1
    rcases List.mem_cons.mp hx with rfl | hx2
    · omega
    · have := ih b hvb hc.2 x hx2
      omega

theorem wf_pairwiseDisjoint :
    ∀ l : List Seg, l.all validSeg = true → contiguous l = true →
      pairwiseDisjoint l = true := by
  intro l
  induction l with
  | nil => intro _ _; rfl
  | cons a t ih =>
    intro hv hc
    simp only [pairwiseDisjoint, Bool.and_eq_true]
    constructor
    · rw [List.all_eq_true]
      intro x hx
      have hle := contiguous_all_le a t hv hc x hx
      simp only [segDisjoint, Bool.or_eq_true, decide_eq_true_eq]
      exact Or.inl hle
    · simp only [List.all_cons, Bool.and_eq_true] at hv
      exact ih hv.2 (contiguous_of_cons _ _ hc)

theorem wf_sortedStarts :
    ∀ l : List Seg, l.all validSeg = true → contiguous l = true →
      sortedStarts l = true := by
  intro l
  induction l with
  | nil => intro _ _; rfl
  | cons a t ih =>
    cases t with
    | nil => intro _ _; rfl
    | cons b u =>
      intro hv hc
      simp only [sortedStarts, Bool.and_eq_true, decide_eq_true_eq]
      simp only [contiguous, Bool.and_eq_true, decide_eq_true_eq] at hc
      have hvt : (b :: u).all validSeg = true := by
        simp only [List.all_cons, Bool.and_eq_true] at hv ⊢
        exact ⟨hv.2.1, hv.2.2⟩
      have ha : a.start < a.stop := by
        simp only [List.all_cons, Bool.and_eq_true, validSeg, decide_eq_true_eq] at hv
        exact hv.1
      exact ⟨by omega, ih hvt hc.2⟩

theorem wf_claimed (l : List Seg) (h : wfContour l = true) :
    claimedContourInv l = true := by
  simp only [wfContour, Bool.and_eq_true] at h
  simp only [claimedContourInv, Bool.and_eq_true]
  exact ⟨⟨wf_sortedStarts l h.1.1 h.1.2, wf_pairwiseDisjoint l h.1.1 h.1.2⟩, h.2⟩

theorem goodTrace_wf :
    ∀ (ops : List ContourOp) (l : List Seg),
      wfContour l = true → goodTrace l ops = true →
      wfContour (runContourOps ops l) = true := by
  intro ops
  induction ops with
  | nil => intro l hw _; exact hw
  | cons op rest ih =>
    intro l hw hg
    cases op with
    | add s e h =>
      rw [runContourOps]
      simp only [goodTrace, Bool.and_eq_true, Bool.or_eq_true, decide_eq_true_eq] at hg
      exact ih _ (addSegment_wf l s e h hw hg.1) hg.2
    | clear =>
      rw [runContourOps]
      simp only [goodTrace] at hg
      exact ih [] rfl hg
    | mergeWith o =>
      simp [goodTrace] at hg

/-- C5 (corrected): along any trace of `clear` and `addSegment` operations in
which every non-degenerate added range stays inside the contour's current
coverage (the discipline the packers follow after seeding each contour with one
spanning segment), starting from a well-formed contour, the claimed invariant
holds of the result: segment starts strictly increase, segment ranges are
pairwise disjoint, and no two abutting segments share a height.  Arbitrary
out-of-coverage adds break it, because `addSegment`'s early-return paths skip
`mergeNodes` (see the counterexample). -/
theorem C5_invariant_amended (ops : List ContourOp) (l : List Seg)
    (hw : wfContour l = true) (hg : goodTrace l ops = true) :
    claimedContourInv (runContourOps ops l) = true :=
  wf_claimed _ (goodTrace_wf ops l hw hg)

theorem C5_invariant_amended_witness :
    wfContour [] = true ∧
    goodTrace [] [ContourOp.add 0 20 0, ContourOp.add 0 5 4, ContourOp.add 5 12 4,
      ContourOp.clear, ContourOp.add 0 7 2] = true ∧
    claimedContourInv (runContourOps [ContourOp.add 0 20 0, ContourOp.add 0 5 4,
      ContourOp.add 5 12 4, ContourOp.clear, ContourOp.add 0 7 2] []) = true :=
  ⟨by decide, by with_unfolding_all decide,
    C5_invariant_amended [ContourOp.add 0 20 0, ContourOp.add 0 5 4, ContourOp.add 5 12 4,
      ContourOp.clear, ContourOp.add 0 7 2] [] (by decide) (by with_unfolding_all decide)⟩

theorem transp_fst {α : Type} [DecidableEq α] (a b : α) : transp a b a = b := by
  unfold transp
  rw [if_pos rfl]

theorem transp_snd {α : Type} [DecidableEq α] (a b : α) : transp a b b = a := by
  unfold transp
  split_ifs with h1 h2
  · exact h1
  · rfl
  · exact absurd rfl h2

theorem transp_other {α : Type} [DecidableEq α] (a b x : α) (h1 : x ≠ a) (h2 : x ≠ b) :
    transp a b x = x := by
  unfold transp
  rw [if_neg h1, if_neg h2]

theorem transp_transp {α : Type} [DecidableEq α] (a b x : α) :
    transp a b (transp a b x) = x := by
  unfold transp
  split_ifs <;> simp_all

theorem map_transp_eq_some {α : Type} [DecidableEq α] {a b : α} {o : Option α} {y : α} :
    o.map (transp a b) = some y ↔ o = some (transp a b y) := by
  cases o with
  | none => simp
  | some x =>
    simp only [Option.map_some', Option.some.injEq]
    constructor
    · intro h; rw [← h, transp_transp]
    · intro h; rw [h, transp_transp]

theorem matchSetParent {α : Type} [DecidableEq α] (o : Option α) (t : HBHeap α) (q : α) :
    (match o with
      | some c => { t with parent := Function.update t.parent c (some q) }
      | none => t) =
    { t with parent := fun x => if o = some x then some q else t.parent x } := by
  obtain ⟨r, nd, pa, le, ri⟩ := t
  cases o with
  | none =>
    simp only [HBHeap.mk.injEq, true_and, and_true]
    funext x
    simp
  | some c =>
    simp only [HBHeap.mk.injEq, true_and, and_true]
    funext x
    by_cases h : x = c
    · subst h
      rw [Function.update_same, if_pos rfl]
    · rw [Function.update_noteq h, if_neg (fun hh => h (Option.some.inj hh).symm)]

theorem relabel_relabel {α : Type} [DecidableEq α] (a b : α) (s : HBHeap α) :
    relabel a b (relabel a b s) = s := by
  obtain ⟨r, nd, pa, le, ri⟩ := s
  simp only [relabel, HBHeap.mk.injEq]
  refine ⟨?_, ?_, ?_, ?_, ?_⟩
  · cases r with
    | none => rfl
    | some x => simp [transp_transp]
  · funext x
    simp [transp_transp]
  · funext x
    rw [transp_transp]
    cases pa x with
    | none => rfl
    | some y => simp [transp_transp]
  · funext x
    rw [transp_transp]
    cases le x with
    | none => rfl
    | some y => simp [transp_transp]
  · funext x
    rw [transp_transp]
    cases ri x with
    | none => rfl
    | some y => simp [transp_transp]

theorem map_transp_inj {α : Type} [DecidableEq α] {a b : α} {o1 o2 : Option α}
    (h : o1.map (transp a b) = o2.map (transp a b)) : o1 = o2 := by
  cases o1 with
  | none => cases o2 with
    | none => rfl
    | some y => simp at h
  | some x => cases o2 with
    | none => simp at h
    | some y =>
      simp only [Option.map_some', Option.some.injEq] at h ⊢
      have h2 := congrArg (transp a b) h
      rwa [transp_transp, transp_transp] at h2

theorem relabel_wf {α : Type} [DecidableEq α] (a b : α) (s : HBHeap α) (h : HBWf s) :
    HBWf (relabel a b s) := by
  obtain ⟨hL, hR, hP, hSl, hSelf, hRoot, hRootP⟩ := h
  refine ⟨?_, ?_, ?_, ?_, ?_, ?_, ?_⟩
  · intro n p hnp
    rw [show (relabel a b s).left p = (s.left (transp a b p)).map (transp a b) from rfl,
      map_transp_eq_some] at hnp
    show (s.parent (transp a b n)).map (transp a b) = some p
    rw [hL _ _ hnp, Option.map_some', transp_transp]
  · intro n p hnp
    rw [show (relabel a b s).right p = (s.right (transp a b p)).map (transp a b) from rfl,
      map_transp_eq_some] at hnp
    show (s.parent (transp a b n)).map (transp a b) = some p
    rw [hR _ _ hnp, Option.map_some', transp_transp]
  · intro n p hnp
    rw [show (relabel a b s).parent n = (s.parent (transp a b n)).map (transp a b) from rfl,
      map_transp_eq_some] at hnp
    rcases hP _ _ hnp with hcase | hcase
    · left
      show (s.left (transp a b p)).map (transp a b) = some n
      rw [hcase, Option.map_some', transp_transp]
    · right
      show (s.right (transp a b p)).map (transp a b) = some n
      rw [hcase, Option.map_some', transp_transp]
  · intro p
    rcases hSl (transp a b p) with hcase | hcase
    · left
      show (s.left (transp a b p)).map (transp a b) = none
      rw [hcase]; rfl
    · right
      intro hc
      exact hcase (map_transp_inj hc)
  · intro n
    constructor
    · intro hc
      rw [show (relabel a b s).left n = (s.left (transp a b n)).map (transp a b) from rfl,
        map_transp_eq_some] at hc
      exact (hSelf (transp a b n)).1 hc
    · intro hc
      rw [show (relabel a b s).right n = (s.right (transp a b n)).map (transp a b) from rfl,
        map_transp_eq_some] at hc
      exact (hSelf (transp a b n)).2 hc
  · intro n hpn hnd
    rw [show (relabel a b s).parent n = (s.parent (transp a b n)).map (transp a b) from rfl,
      Option.map_eq_none'] at hpn
    show s.root.map (transp a b) = some n
    rw [hRoot _ hpn hnd, Option.map_some', transp_transp]
  · intro n hrn
    rw [show (relabel a b s).root = s.root.map (transp a b) from rfl,
      map_transp_eq_some] at hrn
    show (s.parent (transp a b n)).map (transp a b) = none
    rw [hRootP _ hrn]; rfl

theorem setParentOf_root {α : Type} [DecidableEq α] (o : Option α) (q : α) (t : HBHeap α) :
    (setParentOf o q t).root = t.root := by
  cases o <;> rfl

theorem setParentOf_nodes {α : Type} [DecidableEq α] (o : Option α) (q : α) (t : HBHeap α) :
    (setParentOf o q t).nodes = t.nodes := by
  cases o <;> rfl

theorem setParentOf_left {α : Type} [DecidableEq α] (o : Option α) (q : α) (t : HBHeap α) :
    (setParentOf o q t).left = t.left := by
  cases o <;> rfl

theorem setParentOf_right {α : Type} [DecidableEq α] (o : Option α) (q : α) (t : HBHeap α) :
    (setParentOf o q t).right = t.right := by
  cases o <;> rfl

theorem setParentOf_parent {α : Type} [DecidableEq α] (o : Option α) (q : α) (t : HBHeap α)
    (x : α) :
    (setParentOf o q t).parent x = if o = some x then some q else t.parent x := by
  cases o with
  | none => simp [setParentOf]
  | some c =>
    by_cases h : x = c
    · subst h
      simp [setParentOf, Function.update_same]
    · rw [show (setParentOf (some c) q t).parent x = Function.update t.parent c (some q) x
        from rfl]
      rw [Function.update_noteq h, if_neg (fun hh => h (Option.some.inj hh).symm)]

theorem HBHeap.ext' {α : Type} {s t : HBHeap α} (h1 : s.root = t.root)
    (h2 : ∀ x, s.nodes x = t.nodes x) (h3 : ∀ x, s.parent x = t.parent x)
    (h4 : ∀ x, s.left x = t.left x) (h5 : ∀ x, s.right x = t.right x) : s = t := by
  obtain ⟨r1, nd1, pa1, le1, ri1⟩ := s
  obtain ⟨r2, nd2, pa2, le2, ri2⟩ := t
  simp only [HBHeap.mk.injEq]
  exact ⟨h1, funext h2, funext h3, funext h4, funext h5⟩

theorem swapGeneral_root {α : Type} [DecidableEq α] (s : HBHeap α) (n1 n2 : α)
    (hwf : HBWf s) (hne : n1 ≠ n2) (h1 : s.nodes n1 = true) (h2 : s.nodes n2 = true) :
    (hbSwapGeneral s n1 n2).root = s.root.map (transp n1 n2) := by
  obtain ⟨hL, hR, hP, hSl, hSelf, hRoot, hRootP⟩ := hwf
  rcases hp1 : s.parent n1 with _ | p1 <;> rcases hp2 : s.parent n2 with _ | p2
  · have e1 := hRoot n1 hp1 h1
    have e2 := hRoot n2 hp2 h2
    rw [e1] at e2
    exact absurd (Option.some.inj e2) hne
  · by_cases hL2 : s.left p2 = some n2 <;>
      simp only [hbSwapGeneral, hp1, hp2, decide_eq_true_eq, hL2, eq_self_iff_true,
        if_true, if_false, setParentOf_root, hRoot n1 hp1 h1, Option.map_some', transp_fst]
  · by_cases hL1 : s.left p1 = some n1 <;>
      simp only [hbSwapGeneral, hp1, hp2, decide_eq_true_eq, hL1, eq_self_iff_true,
        if_true, if_false, setParentOf_root, hRoot n2 hp2 h2, Option.map_some', transp_snd]
  · have hroot : s.root.map (transp n1 n2) = s.root := by
      cases hr : s.root with
      | none => rfl
      | some y =>
        have hy1 : y ≠ n1 := fun hh => by rw [hh] at hr; rw [hRootP n1 hr] at hp1; cases hp1
        have hy2 : y ≠ n2 := fun hh => by rw [hh] at hr; rw [hRootP n2 hr] at hp2; cases hp2
        rw [Option.map_some', transp_other _ _ _ hy1 hy2]
    rw [hroot]
    by_cases hL1 : s.left p1 = some n1 <;> by_cases hL2 : s.left p2 = some n2 <;>
      simp only [hbSwapGeneral, hp1, hp2, decide_eq_true_eq, hL1, hL2, eq_self_iff_true,
        if_true, if_false, setParentOf_root]

theorem swapGeneral_nodes {α : Type} [DecidableEq α] (s : HBHeap α) (n1 n2 : α)
    (hwf : HBWf s) (hne : n1 ≠ n2) (h1 : s.nodes n1 = true) (h2 : s.nodes n2 = true)
    (x : α) :
    (hbSwapGeneral s n1 n2).nodes x = s.nodes (transp n1 n2 x) := by
  obtain ⟨hL, hR, hP, hSl, hSelf, hRoot, hRootP⟩ := hwf
  have hrhs : s.nodes (transp n1 n2 x) = s.nodes x := by
    by_cases hx1 : x = n1
    · subst hx1; rw [transp_fst, h1, h2]
    · by_cases hx2 : x = n2
      · subst hx2; rw [transp_snd, h1, h2]
      · rw [transp_other _ _ _ hx1 hx2]
  rw [hrhs]
  rcases hp1 : s.parent n1 with _ | p1 <;> rcases hp2 : s.parent n2 with _ | p2
  · have e1 := hRoot n1 hp1 h1
    have e2 := hRoot n2 hp2 h2
    rw [e1] at e2
    exact absurd (Option.some.inj e2) hne
  · by_cases hL2 : s.left p2 = some n2 <;>
      simp only [hbSwapGeneral, hp1, hp2, decide_eq_true_eq, hL2, eq_self_iff_true,
        if_true, if_false, setParentOf_nodes]
  · by_cases hL1 : s.left p1 = some n1 <;>
      simp only [hbSwapGeneral, hp1, hp2, decide_eq_true_eq, hL1, eq_self_iff_true,
        if_true, if_false, setParentOf_nodes]
  · by_cases hL1 : s.left p1 = some n1 <;> by_cases hL2 : s.left p2 = some n2 <;>
      simp only [hbSwapGeneral, hp1, hp2, decide_eq_true_eq, hL1, hL2, eq_self_iff_true,
        if_true, if_false, setParentOf_nodes]

theorem swapGeneral_left {α : Type} [DecidableEq α] (s : HBHeap α) (n1 n2 : α)
    (hwf : HBWf s) (hne : n1 ≠ n2) (h1 : s.nodes n1 = true) (h2 : s.nodes n2 = true)
    (hA : s.left n1 ≠ some n2) (hB : s.right n1 ≠ some n2)
    (hC : s.left n2 ≠ some n1) (hD : s.right n2 ≠ some n1) (x : α) :
    (hbSwapGeneral s n1 n2).left x = (s.left (transp n1 n2 x)).map (transp n1 n2) := by
  obtain ⟨hL, hR, hP, hSl, hSelf, hRoot, hRootP⟩ := hwf
  rcases hp1 : s.parent n1 with _ | p1 <;> rcases hp2 : s.parent n2 with _ | p2
  · have e1 := hRoot n1 hp1 h1
    have e2 := hRoot n2 hp2 h2
    rw [e1] at e2
    exact absurd (Option.some.inj e2) hne
  · -- parent1 = none, parent2 = some p2
    have hq2 := hP n2 p2 hp2
    have hp2f : p2 ≠ n1 ∧ p2 ≠ n2 := by
      constructor
      · intro hh; rw [hh] at hq2
        rcases hq2 with hq | hq
        · exact hA hq
        · exact hB hq
      · intro hh; rw [hh] at hq2
        rcases hq2 with hq | hq
        · exact (hSelf n2).1 hq
        · exact (hSelf n2).2 hq
    have hn1p2 : n1 ≠ p2 := Ne.symm hp2f.1
    have hn2p2 : n2 ≠ p2 := Ne.symm hp2f.2
    have hle1 : ∀ z, s.left z ≠ some n1 :=
      fun z hz => Option.noConfusion (hp1 ▸ hL n1 z hz)
    by_cases hL2 : s.left p2 = some n2
    · simp only [hbSwapGeneral, hp1, hp2, decide_eq_true_eq, hL2, eq_self_iff_true,
        if_true, if_false, setParentOf_left, Function.update_noteq hn1p2,
        Function.update_noteq hn2p2]
      by_cases hxa : x = p2
      · subst hxa
        rw [Function.update_same, transp_other _ _ _ hp2f.1 hp2f.2, hL2, Option.map_some',
          transp_snd]
      · rw [Function.update_noteq hxa]
        by_cases hxc : x = n2
        · rw [hxc]
          rw [Function.update_same, transp_snd]
          cases hv : s.left n1 with
          | none => rfl
          | some c =>
            rw [Option.map_some',
              transp_other _ _ _ (fun (hh : c = n1) => (hSelf n1).1 (hh ▸ hv)) (fun (hh : c = n2) => hA (hh ▸ hv))]
        · rw [Function.update_noteq hxc]
          by_cases hxd : x = n1
          · rw [hxd]
            rw [Function.update_same, transp_fst]
            cases hv : s.left n2 with
            | none => rfl
            | some c =>
              rw [Option.map_some',
                transp_other _ _ _ (fun (hh : c = n1) => hC (hh ▸ hv)) (fun (hh : c = n2) => (hSelf n2).1 (hh ▸ hv))]
          · rw [Function.update_noteq hxd, Function.update_noteq hxa,
              transp_other _ _ _ hxd hxc]
            cases hv : s.left x with
            | none => rfl
            | some y =>
              rw [Option.map_some', transp_other _ _ _
                (fun (hh : y = n1) => hle1 x (hh ▸ hv))
                (fun (hh : y = n2) => hxa (Option.some.inj ((hL n2 x (hh ▸ hv)).symm.trans hp2)))]
    · simp only [hbSwapGeneral, hp1, hp2, decide_eq_true_eq, hL2, eq_self_iff_true,
        if_true, if_false, setParentOf_left]
      have hle2 : ∀ z, s.left z ≠ some n2 :=
        fun z hz => hL2 ((Option.some.inj ((hL n2 z hz).symm.trans hp2)) ▸ hz)
      by_cases hxc : x = n2
      · rw [hxc]
        rw [Function.update_same, transp_snd]
        cases hv : s.left n1 with
        | none => rfl
        | some c =>
          rw [Option.map_some',
            transp_other _ _ _ (fun (hh : c = n1) => (hSelf n1).1 (hh ▸ hv)) (fun (hh : c = n2) => hA (hh ▸ hv))]
      · rw [Function.update_noteq hxc]
        by_cases hxd : x = n1
        · rw [hxd]
          rw [Function.update_same, transp_fst]
          cases hv : s.left n2 with
          | none => rfl
          | some c =>
            rw [Option.map_some',
              transp_other _ _ _ (fun (hh : c = n1) => hC (hh ▸ hv)) (fun (hh : c = n2) => (hSelf n2).1 (hh ▸ hv))]
        · rw [Function.update_noteq hxd, transp_other _ _ _ hxd hxc]
          cases hv : s.left x with
          | none => rfl
          | some y =>
            rw [Option.map_some', transp_other _ _ _
              (fun (hh : y = n1) => hle1 x (hh ▸ hv)) (fun (hh : y = n2) => hle2 x (hh ▸ hv))]
  · -- parent1 = some p1, parent2 = none
    have hq1 := hP n1 p1 hp1
    have hp1f : p1 ≠ n1 ∧ p1 ≠ n2 := by
      constructor
      · intro hh; rw [hh] at hq1
        rcases hq1 with hq | hq
        · exact (hSelf n1).1 hq
        · exact (hSelf n1).2 hq
      · intro hh; rw [hh] at hq1
        rcases hq1 with hq | hq
        · exact hC hq
        · exact hD hq
    have hn1p1 : n1 ≠ p1 := Ne.symm hp1f.1
    have hn2p1 : n2 ≠ p1 := Ne.symm hp1f.2
    have hle2 : ∀ z, s.left z ≠ some n2 :=
      fun z hz => Option.noConfusion (hp2 ▸ hL n2 z hz)
    by_cases hL1 : s.left p1 = some n1
    · simp only [hbSwapGeneral, hp1, hp2, decide_eq_true_eq, hL1, eq_self_iff_true,
        if_true, if_false, setParentOf_left, Function.update_noteq hn1p1,
        Function.update_noteq hn2p1]
      by_cases hxb : x = p1
      · subst hxb
        rw [Function.update_same, transp_other _ _ _ hp1f.1 hp1f.2, hL1, Option.map_some',
          transp_fst]
      · rw [Function.update_noteq hxb]
        by_cases hxc : x = n2
        · rw [hxc]
          rw [Function.update_same, transp_snd]
          cases hv : s.left n1 with
          | none => rfl
          | some c =>
            rw [Option.map_some',
              transp_other _ _ _ (fun (hh : c = n1) => (hSelf n1).1 (hh ▸ hv)) (fun (hh : c = n2) => hA (hh ▸ hv))]
        · rw [Function.update_noteq hxc]
          by_cases hxd : x = n1
          · rw [hxd]
            rw [Function.update_same, transp_fst]
            cases hv : s.left n2 with
            | none => rfl
            | some c =>
              rw [Option.map_some',
                transp_other _ _ _ (fun (hh : c = n1) => hC (hh ▸ hv)) (fun (hh : c = n2) => (hSelf n2).1 (hh ▸ hv))]
          · rw [Function.update_noteq hxd, Function.update_noteq hxb,
              transp_other _ _ _ hxd hxc]
            cases hv : s.left x with
            | none => rfl
            | some y =>
              rw [Option.map_some', transp_other _ _ _
                (fun (hh : y = n1) => hxb (Option.some.inj ((hL n1 x (hh ▸ hv)).symm.trans hp1)))
                (fun (hh : y = n2) => hle2 x (hh ▸ hv))]
    · simp only [hbSwapGeneral, hp1, hp2, decide_eq_true_eq, hL1, eq_self_iff_true,
        if_true, if_false, setParentOf_left]
      have hle1 : ∀ z, s.left z ≠ some n1 :=
        fun z hz => hL1 ((Option.some.inj ((hL n1 z hz).symm.trans hp1)) ▸ hz)
      by_cases hxc : x = n2
      · rw [hxc]
        rw [Function.update_same, transp_snd]
        cases hv : s.left n1 with
        | none => rfl
        | some c =>
          rw [Option.map_some',
            transp_other _ _ _ (fun (hh : c = n1) => (hSelf n1).1 (hh ▸ hv)) (fun (hh : c = n2) => hA (hh ▸ hv))]
      · rw [Function.update_noteq hxc]
        by_cases hxd : x = n1
        · rw [hxd]
          rw [Function.update_same, transp_fst]
          cases hv : s.left n2 with
          | none => rfl
          | some c =>
            rw [Option.map_some',
              transp_other _ _ _ (fun (hh : c = n1) => hC (hh ▸ hv)) (fun (hh : c = n2) => (hSelf n2).1 (hh ▸ hv))]
        · rw [Function.update_noteq hxd, transp_other _ _ _ hxd hxc]
          cases hv : s.left x with
          | none => rfl
          | some y =>
            rw [Option.map_some', transp_other _ _ _
              (fun (hh : y = n1) => hle1 x (hh ▸ hv)) (fun (hh : y = n2) => hle2 x (hh ▸ hv))]
  · -- parent1 = some p1, parent2 = some p2
    have hq1 := hP n1 p1 hp1
    have hq2 := hP n2 p2 hp2
    have hp1f : p1 ≠ n1 ∧ p1 ≠ n2 := by
      constructor
      · intro hh; rw [hh] at hq1
        rcases hq1 with hq | hq
        · exact (hSelf n1).1 hq
        · exact (hSelf n1).2 hq
      · intro hh; rw [hh] at hq1
        rcases hq1 with hq | hq
        · exact hC hq
        · exact hD hq
    have hp2f : p2 ≠ n1 ∧ p2 ≠ n2 := by
      constructor
      · intro hh; rw [hh] at hq2
        rcases hq2 with hq | hq
        · exact hA hq
        · exact hB hq
      · intro hh; rw [hh] at hq2
        rcases hq2 with hq | hq
        · exact (hSelf n2).1 hq
        · exact (hSelf n2).2 hq
    have hn1p1 : n1 ≠ p1 := Ne.symm hp1f.1
    have hn2p1 : n2 ≠ p1 := Ne.symm hp1f.2
    have hn1p2 : n1 ≠ p2 := Ne.symm hp2f.1
    have hn2p2 : n2 ≠ p2 := Ne.symm hp2f.2
    by_cases hL1 : s.left p1 = some n1 <;> by_cases hL2 : s.left p2 = some n2
    · -- both left children
      have hp1p2 : p1 ≠ p2 := by
        intro hh
        rw [hh, hL2] at hL1
        exact hne (Option.some.inj hL1).symm
      simp only [hbSwapGeneral, hp1, hp2, decide_eq_true_eq, hL1, hL2, eq_self_iff_true,
        if_true, if_false, setParentOf_left, Function.update_noteq hn1p1,
        Function.update_noteq hn1p2, Function.update_noteq hn2p1, Function.update_noteq hn2p2]
      by_cases hxa : x = p2
      · subst hxa
        rw [Function.update_same, transp_other _ _ _ hp2f.1 hp2f.2, hL2, Option.map_some',
          transp_snd]
      · rw [Function.update_noteq hxa]
        by_cases hxb : x = p1
        · subst hxb
          rw [Function.update_same, transp_other _ _ _ hp1f.1 hp1f.2, hL1, Option.map_some',
            transp_fst]
        · rw [Function.update_noteq hxb]
          by_cases hxc : x = n2
          · rw [hxc]
            rw [Function.update_same, transp_snd]
            cases hv : s.left n1 with
            | none => rfl
            | some c =>
              rw [Option.map_some',
                transp_other _ _ _ (fun (hh : c = n1) => (hSelf n1).1 (hh ▸ hv)) (fun (hh : c = n2) => hA (hh ▸ hv))]
          · rw [Function.update_noteq hxc]
            by_cases hxd : x = n1
            · rw [hxd]
              rw [Function.update_same, transp_fst]
              cases hv : s.left n2 with
              | none => rfl
              | some c =>
                rw [Option.map_some',
                  transp_other _ _ _ (fun (hh : c = n1) => hC (hh ▸ hv))
                    (fun (hh : c = n2) => (hSelf n2).1 (hh ▸ hv))]
            · rw [Function.update_noteq hxd, Function.update_noteq hxa,
                Function.update_noteq hxb, transp_other _ _ _ hxd hxc]
              cases hv : s.left x with
              | none => rfl
              | some y =>
                rw [Option.map_some', transp_other _ _ _
                  (fun (hh : y = n1) => hxb (Option.some.inj ((hL n1 x (hh ▸ hv)).symm.trans hp1)))
                  (fun (hh : y = n2) => hxa (Option.some.inj ((hL n2 x (hh ▸ hv)).symm.trans hp2)))]
    · -- n1 left child, n2 right child
      have hR2 : s.right p2 = some n2 := hq2.resolve_left hL2
      have hle2 : ∀ z, s.left z ≠ some n2 :=
        fun z hz => hL2 ((Option.some.inj ((hL n2 z hz).symm.trans hp2)) ▸ hz)
      simp only [hbSwapGeneral, hp1, hp2, decide_eq_true_eq, hL1, hL2, eq_self_iff_true,
        if_true, if_false, setParentOf_left, Function.update_noteq hn1p1,
        Function.update_noteq hn2p1]
      by_cases hxb : x = p1
      · subst hxb
        rw [Function.update_same, transp_other _ _ _ hp1f.1 hp1f.2, hL1, Option.map_some',
          transp_fst]
      · rw [Function.update_noteq hxb]
        by_cases hxc : x = n2
        · rw [hxc]
          rw [Function.update_same, transp_snd]
          cases hv : s.left n1 with
          | none => rfl
          | some c =>
            rw [Option.map_some',
              transp_other _ _ _ (fun (hh : c = n1) => (hSelf n1).1 (hh ▸ hv)) (fun (hh : c = n2) => hA (hh ▸ hv))]
        · rw [Function.update_noteq hxc]
          by_cases hxd : x = n1
          · rw [hxd]
            rw [Function.update_same, transp_fst]
            cases hv : s.left n2 with
            | none => rfl
            | some c =>
              rw [Option.map_some',
                transp_other _ _ _ (fun (hh : c = n1) => hC (hh ▸ hv)) (fun (hh : c = n2) => (hSelf n2).1 (hh ▸ hv))]
          · rw [Function.update_noteq hxd, Function.update_noteq hxb,
              transp_other _ _ _ hxd hxc]
            cases hv : s.left x with
            | none => rfl
            | some y =>
              rw [Option.map_some', transp_other _ _ _
                (fun (hh : y = n1) => hxb (Option.some.inj ((hL n1 x (hh ▸ hv)).symm.trans hp1)))
                (fun (hh : y = n2) => hle2 x (hh ▸ hv))]
    · -- n1 right child, n2 left child
      have hR1 : s.right p1 = some n1 := hq1.resolve_left hL1
      have hle1 : ∀ z, s.left z ≠ some n1 :=
        fun z hz => hL1 ((Option.some.inj ((hL n1 z hz).symm.trans hp1)) ▸ hz)
      simp only [hbSwapGeneral, hp1, hp2, decide_eq_true_eq, hL1, hL2, eq_self_iff_true,
        if_true, if_false, setParentOf_left, Function.update_noteq hn1p2,
        Function.update_noteq hn2p2]
      by_cases hxa : x = p2
      · subst hxa
        rw [Function.update_same, transp_other _ _ _ hp2f.1 hp2f.2, hL2, Option.map_some',
          transp_snd]
      · rw [Function.update_noteq hxa]
        by_cases hxc : x = n2
        · rw [hxc]
          rw [Function.update_same, transp_snd]
          cases hv : s.left n1 with
          | none => rfl
          | some c =>
            rw [Option.map_some',
              transp_other _ _ _ (fun (hh : c = n1) => (hSelf n1).1 (hh ▸ hv)) (fun (hh : c = n2) => hA (hh ▸ hv))]
        · rw [Function.update_noteq hxc]
          by_cases hxd : x = n1
          · rw [hxd]
            rw [Function.update_same, transp_fst]
            cases hv : s.left n2 with
            | none => rfl
            | some c =>
              rw [Option.map_some',
                transp_other _ _ _ (fun (hh : c = n1) => hC (hh ▸ hv)) (fun (hh : c = n2) => (hSelf n2).1 (hh ▸ hv))]
          · rw [Function.update_noteq hxd, Function.update_noteq hxa,
              transp_other _ _ _ hxd hxc]
            cases hv : s.left x with
            | none => rfl
            | some y =>
              rw [Option.map_some', transp_other _ _ _
                (fun (hh : y = n1) => hle1 x (hh ▸ hv))
                (fun (hh : y = n2) => hxa (Option.some.inj ((hL n2 x (hh ▸ hv)).symm.trans hp2)))]
    · -- both right children
      have hR1 : s.right p1 = some n1 := hq1.resolve_left hL1
      have hR2 : s.right p2 = some n2 := hq2.resolve_left hL2
      have hle1 : ∀ z, s.left z ≠ some n1 :=
        fun z hz => hL1 ((Option.some.inj ((hL n1 z hz).symm.trans hp1)) ▸ hz)
      have hle2 : ∀ z, s.left z ≠ some n2 :=
        fun z hz => hL2 ((Option.some.inj ((hL n2 z hz).symm.trans hp2)) ▸ hz)
      simp only [hbSwapGeneral, hp1, hp2, decide_eq_true_eq, hL1, hL2, eq_self_iff_true,
        if_true, if_false, setParentOf_left]
      by_cases hxc : x = n2
      · rw [hxc]
        rw [Function.update_same, transp_snd]
        cases hv : s.left n1 with
        | none => rfl
        | some c =>
          rw [Option.map_some',
            transp_other _ _ _ (fun (hh : c = n1) => (hSelf n1).1 (hh ▸ hv)) (fun (hh : c = n2) => hA (hh ▸ hv))]
      · rw [Function.update_noteq hxc]
        by_cases hxd : x = n1
        · rw [hxd]
          rw [Function.update_same, transp_fst]
          cases hv : s.left n2 with
          | none => rfl
          | some c =>
            rw [Option.map_some',
              transp_other _ _ _ (fun (hh : c = n1) => hC (hh ▸ hv)) (fun (hh : c = n2) => (hSelf n2).1 (hh ▸ hv))]
        · rw [Function.update_noteq hxd, transp_other _ _ _ hxd hxc]
          cases hv : s.left x with
          | none => rfl
          | some y =>
            rw [Option.map_some', transp_other _ _ _
              (fun (hh : y = n1) => hle1 x (hh ▸ hv)) (fun (hh : y = n2) => hle2 x (hh ▸ hv))]

theorem swapGeneral_right {α : Type} [DecidableEq α] (s : HBHeap α) (n1 n2 : α)
    (hwf : HBWf s) (hne : n1 ≠ n2) (h1 : s.nodes n1 = true) (h2 : s.nodes n2 = true)
    (hA : s.left n1 ≠ some n2) (hB : s.right n1 ≠ some n2)
    (hC : s.left n2 ≠ some n1) (hD : s.right n2 ≠ some n1) (x : α) :
    (hbSwapGeneral s n1 n2).right x = (s.right (transp n1 n2 x)).map (transp n1 n2) := by
  obtain ⟨hL, hR, hP, hSl, hSelf, hRoot, hRootP⟩ := hwf
  rcases hp1 : s.parent n1 with _ | p1 <;> rcases hp2 : s.parent n2 with _ | p2
  · have e1 := hRoot n1 hp1 h1
    have e2 := hRoot n2 hp2 h2
    rw [e1] at e2
    exact absurd (Option.some.inj e2) hne
  · -- parent1 = none, parent2 = some p2
    have hq2 := hP n2 p2 hp2
    have hp2f : p2 ≠ n1 ∧ p2 ≠ n2 := by
      constructor
      · intro hh; rw [hh] at hq2
        rcases hq2 with hq | hq
        · exact hA hq
        · exact hB hq
      · intro hh; rw [hh] at hq2
        rcases hq2 with hq | hq
        · exact (hSelf n2).1 hq
        · exact (hSelf n2).2 hq
    have hn1p2 : n1 ≠ p2 := Ne.symm hp2f.1
    have hn2p2 : n2 ≠ p2 := Ne.symm hp2f.2
    have hri1 : ∀ z, s.right z ≠ some n1 :=
      fun z hz => Option.noConfusion (hp1 ▸ hR n1 z hz)
    by_cases hL2 : s.left p2 = some n2
    · -- n2 is a left child: no p2 layer on the right field
      have hRne2 : s.right p2 ≠ some n2 := by
        rcases hSl p2 with hq | hq
        · rw [hL2] at hq; exact Option.noConfusion hq
        · rw [hL2] at hq; exact fun hh => hq hh.symm
      have hri2 : ∀ z, s.right z ≠ some n2 :=
        fun z hz => hRne2 ((Option.some.inj ((hR n2 z hz).symm.trans hp2)) ▸ hz)
      simp only [hbSwapGeneral, hp1, hp2, decide_eq_true_eq, hL2, eq_self_iff_true,
        if_true, if_false, setParentOf_right]
      by_cases hxc : x = n2
      · rw [hxc]
        rw [Function.update_same, transp_snd]
        cases hv : s.right n1 with
        | none => rfl
        | some c =>
          rw [Option.map_some',
            transp_other _ _ _ (fun (hh : c = n1) => (hSelf n1).2 (hh ▸ hv))
              (fun (hh : c = n2) => hB (hh ▸ hv))]
      · rw [Function.update_noteq hxc]
        by_cases hxd : x = n1
        · rw [hxd]
          rw [Function.update_same, transp_fst]
          cases hv : s.right n2 with
          | none => rfl
          | some c =>
            rw [Option.map_some',
              transp_other _ _ _ (fun (hh : c = n1) => hD (hh ▸ hv))
                (fun (hh : c = n2) => (hSelf n2).2 (hh ▸ hv))]
        · rw [Function.update_noteq hxd, transp_other _ _ _ hxd hxc]
          cases hv : s.right x with
          | none => rfl
          | some y =>
            rw [Option.map_some', transp_other _ _ _
              (fun (hh : y = n1) => hri1 x (hh ▸ hv)) (fun (hh : y = n2) => hri2 x (hh ▸ hv))]
    · -- n2 is a right child: p2 layers present on the right field
      have hR2 : s.right p2 = some n2 := hq2.resolve_left hL2
      simp only [hbSwapGeneral, hp1, hp2, decide_eq_true_eq, hL2, eq_self_iff_true,
        if_true, if_false, setParentOf_right, Function.update_noteq hn1p2,
        Function.update_noteq hn2p2]
      by_cases hxa : x = p2
      · subst hxa
        rw [Function.update_same, transp_other _ _ _ hp2f.1 hp2f.2, hR2, Option.map_some',
          transp_snd]
      · rw [Function.update_noteq hxa]
        by_cases hxc : x = n2
        · rw [hxc]
          rw [Function.update_same, transp_snd]
          cases hv : s.right n1 with
          | none => rfl
          | some c =>
            rw [Option.map_some',
              transp_other _ _ _ (fun (hh : c = n1) => (hSelf n1).2 (hh ▸ hv))
                (fun (hh : c = n2) => hB (hh ▸ hv))]
        · rw [Function.update_noteq hxc]
          by_cases hxd : x = n1
          · rw [hxd]
            rw [Function.update_same, transp_fst]
            cases hv : s.right n2 with
            | none => rfl
            | some c =>
              rw [Option.map_some',
                transp_other _ _ _ (fun (hh : c = n1) => hD (hh ▸ hv))
                  (fun (hh : c = n2) => (hSelf n2).2 (hh ▸ hv))]
          · rw [Function.update_noteq hxd, Function.update_noteq hxa,
              transp_other _ _ _ hxd hxc]
            cases hv : s.right x with
            | none => rfl
            | some y =>
              rw [Option.map_some', transp_other _ _ _
                (fun (hh : y = n1) => hri1 x (hh ▸ hv))
                (fun (hh : y = n2) => hxa (Option.some.inj ((hR n2 x (hh ▸ hv)).symm.trans hp2)))]
  · -- parent1 = some p1, parent2 = none
    have hq1 := hP n1 p1 hp1
    have hp1f : p1 ≠ n1 ∧ p1 ≠ n2 := by
      constructor
      · intro hh; rw [hh] at hq1
        rcases hq1 with hq | hq
        · exact (hSelf n1).1 hq
        · exact (hSelf n1).2 hq
      · intro hh; rw [hh] at hq1
        rcases hq1 with hq | hq
        · exact hC hq
        · exact hD hq
    have hn1p1 : n1 ≠ p1 := Ne.symm hp1f.1
    have hn2p1 : n2 ≠ p1 := Ne.symm hp1f.2
    have hri2 : ∀ z, s.right z ≠ some n2 :=
      fun z hz => Option.noConfusion (hp2 ▸ hR n2 z hz)
    by_cases hL1 : s.left p1 = some n1
    · -- n1 is a left child: no p1 layer on the right field
      have hRne1 : s.right p1 ≠ some n1 := by
        rcases hSl p1 with hq | hq
        · rw [hL1] at hq; exact Option.noConfusion hq
        · rw [hL1] at hq; exact fun hh => hq hh.symm
      have hri1 : ∀ z, s.right z ≠ some n1 :=
        fun z hz => hRne1 ((Option.some.inj ((hR n1 z hz).symm.trans hp1)) ▸ hz)
      simp only [hbSwapGeneral, hp1, hp2, decide_eq_true_eq, hL1, eq_self_iff_true,
        if_true, if_false, setParentOf_right]
      by_cases hxc : x = n2
      · rw [hxc]
        rw [Function.update_same, transp_snd]
        cases hv : s.right n1 with
        | none => rfl
        | some c =>
          rw [Option.map_some',
            transp_other _ _ _ (fun (hh : c = n1) => (hSelf n1).2 (hh ▸ hv))
              (fun (hh : c = n2) => hB (hh ▸ hv))]
      · rw [Function.update_noteq hxc]
        by_cases hxd : x = n1
        · rw [hxd]
          rw [Function.update_same, transp_fst]
          cases hv : s.right n2 with
          | none => rfl
          | some c =>
            rw [Option.map_some',
              transp_other _ _ _ (fun (hh : c = n1) => hD (hh ▸ hv))
                (fun (hh : c = n2) => (hSelf n2).2 (hh ▸ hv))]
        · rw [Function.update_noteq hxd, transp_other _ _ _ hxd hxc]
          cases hv : s.right x with
          | none => rfl
          | some y =>
            rw [Option.map_some', transp_other _ _ _
              (fun (hh : y = n1) => hri1 x (hh ▸ hv)) (fun (hh : y = n2) => hri2 x (hh ▸ hv))]
    · -- n1 is a right child: p1 layers present
      have hR1 : s.right p1 = some n1 := hq1.resolve_left hL1
      simp only [hbSwapGeneral, hp1, hp2, decide_eq_true_eq, hL1, eq_self_iff_true,
        if_true, if_false, setParentOf_right, Function.update_noteq hn1p1,
        Function.update_noteq hn2p1]
      by_cases hxb : x = p1
      · subst hxb
        rw [Function.update_same, transp_other _ _ _ hp1f.1 hp1f.2, hR1, Option.map_some',
          transp_fst]
      · rw [Function.update_noteq hxb]
        by_cases hxc : x = n2
        · rw [hxc]
          rw [Function.update_same, transp_snd]
          cases hv : s.right n1 with
          | none => rfl
          | some c =>
            rw [Option.map_some',
              transp_other _ _ _ (fun (hh : c = n1) => (hSelf n1).2 (hh ▸ hv))
                (fun (hh : c = n2) => hB (hh ▸ hv))]
        · rw [Function.update_noteq hxc]
          by_cases hxd : x = n1
          · rw [hxd]
            rw [Function.update_same, transp_fst]
            cases hv : s.right n2 with
            | none => rfl
            | some c =>
              rw [Option.map_some',
                transp_other _ _ _ (fun (hh : c = n1) => hD (hh ▸ hv))
                  (fun (hh : c = n2) => (hSelf n2).2 (hh ▸ hv))]
          · rw [Function.update_noteq hxd, Function.update_noteq hxb,
              transp_other _ _ _ hxd hxc]
            cases hv : s.right x with
            | none => rfl
            | some y =>
              rw [Option.map_some', transp_other _ _ _
                (fun (hh : y = n1) => hxb (Option.some.inj ((hR n1 x (hh ▸ hv)).symm.trans hp1)))
                (fun (hh : y = n2) => hri2 x (hh ▸ hv))]
  · -- parent1 = some p1, parent2 = some p2
    have hq1 := hP n1 p1 hp1
    have hq2 := hP n2 p2 hp2
    have hp1f : p1 ≠ n1 ∧ p1 ≠ n2 := by
      constructor
      · intro hh; rw [hh] at hq1
        rcases hq1 with hq | hq
        · exact (hSelf n1).1 hq
        · exact (hSelf n1).2 hq
      · intro hh; rw [hh] at hq1
        rcases hq1 with hq | hq
        · exact hC hq
        · exact hD hq
    have hp2f : p2 ≠ n1 ∧ p2 ≠ n2 := by
      constructor
      · intro hh; rw [hh] at hq2
        rcases hq2 with hq | hq
        · exact hA hq
        · exact hB hq
      · intro hh; rw [hh] at hq2
        rcases hq2 with hq | hq
        · exact (hSelf n2).1 hq
        · exact (hSelf n2).2 hq
    have hn1p1 : n1 ≠ p1 := Ne.symm hp1f.1
    have hn2p1 : n2 ≠ p1 := Ne.symm hp1f.2
    have hn1p2 : n1 ≠ p2 := Ne.symm hp2f.1
    have hn2p2 : n2 ≠ p2 := Ne.symm hp2f.2
    by_cases hL1 : s.left p1 = some n1 <;> by_cases hL2 : s.left p2 = some n2
    · -- both left children: no p layers on the right field
      have hRne1 : s.right p1 ≠ some n1 := by
        rcases hSl p1 with hq | hq
        · rw [hL1] at hq; exact Option.noConfusion hq
        · rw [hL1] at hq; exact fun hh => hq hh.symm
      have hri1 : ∀ z, s.right z ≠ some n1 :=
        fun z hz => hRne1 ((Option.some.inj ((hR n1 z hz).symm.trans hp1)) ▸ hz)
      have hRne2 : s.right p2 ≠ some n2 := by
        rcases hSl p2 with hq | hq
        · rw [hL2] at hq; exact Option.noConfusion hq
        · rw [hL2] at hq; exact fun hh => hq hh.symm
      have hri2 : ∀ z, s.right z ≠ some n2 :=
        fun z hz => hRne2 ((Option.some.inj ((hR n2 z hz).symm.trans hp2)) ▸ hz)
      simp only [hbSwapGeneral, hp1, hp2, decide_eq_true_eq, hL1, hL2, eq_self_iff_true,
        if_true, if_false, setParentOf_right]
      by_cases hxc : x = n2
      · rw [hxc]
        rw [Function.update_same, transp_snd]
        cases hv : s.right n1 with
        | none => rfl
        | some c =>
          rw [Option.map_some',
            transp_other _ _ _ (fun (hh : c = n1) => (hSelf n1).2 (hh ▸ hv))
              (fun (hh : c = n2) => hB (hh ▸ hv))]
      · rw [Function.update_noteq hxc]
        by_cases hxd : x = n1
        · rw [hxd]
          rw [Function.update_same, transp_fst]
          cases hv : s.right n2 with
          | none => rfl
          | some c =>
            rw [Option.map_some',
              transp_other _ _ _ (fun (hh : c = n1) => hD (hh ▸ hv))
                (fun (hh : c = n2) => (hSelf n2).2 (hh ▸ hv))]
        · rw [Function.update_noteq hxd, transp_other _ _ _ hxd hxc]
          cases hv : s.right x with
          | none => rfl
          | some y =>
            rw [Option.map_some', transp_other _ _ _
              (fun (hh : y = n1) => hri1 x (hh ▸ hv)) (fun (hh : y = n2) => hri2 x (hh ▸ hv))]
    · -- n1 left child, n2 right child: p2 layers present
      have hR2 : s.right p2 = some n2 := hq2.resolve_left hL2
      have hRne1 : s.right p1 ≠ some n1 := by
        rcases hSl p1 with hq | hq
        · rw [hL1] at hq; exact Option.noConfusion hq
        · rw [hL1] at hq; exact fun hh => hq hh.symm
      have hri1 : ∀ z, s.right z ≠ some n1 :=
        fun z hz => hRne1 ((Option.some.inj ((hR n1 z hz).symm.trans hp1)) ▸ hz)
      simp only [hbSwapGeneral, hp1, hp2, decide_eq_true_eq, hL1, hL2, eq_self_iff_true,
        if_true, if_false, setParentOf_right, Function.update_noteq hn1p2,
        Function.update_noteq hn2p2]
      by_cases hxa : x = p2
      · subst hxa
        rw [Function.update_same, transp_other _ _ _ hp2f.1 hp2f.2, hR2, Option.map_some',
          transp_snd]
      · rw [Function.update_noteq hxa]
        by_cases hxc : x = n2
        · rw [hxc]
          rw [Function.update_same, transp_snd]
          cases hv : s.right n1 with
          | none => rfl
          | some c =>
            rw [Option.map_some',
              transp_other _ _ _ (fun (hh : c = n1) => (hSelf n1).2 (hh ▸ hv))
                (fun (hh : c = n2) => hB (hh ▸ hv))]
        · rw [Function.update_noteq hxc]
          by_cases hxd : x = n1
          · rw [hxd]
            rw [Function.update_same, transp_fst]
            cases hv : s.right n2 with
            | none => rfl
            | some c =>
              rw [Option.map_some',
                transp_other _ _ _ (fun (hh : c = n1) => hD (hh ▸ hv))
                  (fun (hh : c = n2) => (hSelf n2).2 (hh ▸ hv))]
          · rw [Function.update_noteq hxd, Function.update_noteq hxa,
              transp_other _ _ _ hxd hxc]
            cases hv : s.right x with
            | none => rfl
            | some y =>
              rw [Option.map_some', transp_other _ _ _
                (fun (hh : y = n1) => hri1 x (hh ▸ hv))
                (fun (hh : y = n2) => hxa (Option.some.inj ((hR n2 x (hh ▸ hv)).symm.trans hp2)))]
    · -- n1 right child, n2 left child: p1 layers present
      have hR1 : s.right p1 = some n1 := hq1.resolve_left hL1
      have hRne2 : s.right p2 ≠ some n2 := by
        rcases hSl p2 with hq | hq
        · rw [hL2] at hq; exact Option.noConfusion hq
        · rw [hL2] at hq; exact fun hh => hq hh.symm
      have hri2 : ∀ z, s.right z ≠ some n2 :=
        fun z hz => hRne2 ((Option.some.inj ((hR n2 z hz).symm.trans hp2)) ▸ hz)
      simp only [hbSwapGeneral, hp1, hp2, decide_eq_true_eq, hL1, hL2, eq_self_iff_true,
        if_true, if_false, setParentOf_right, Function.update_noteq hn1p1,
        Function.update_noteq hn2p1]
      by_cases hxb : x = p1
      · subst hxb
        rw [Function.update_same, transp_other _ _ _ hp1f.1 hp1f.2, hR1, Option.map_some',
          transp_fst]
      · rw [Function.update_noteq hxb]
        by_cases hxc : x = n2
        · rw [hxc]
          rw [Function.update_same, transp_snd]
          cases hv : s.right n1 with
          | none => rfl
          | some c =>
            rw [Option.map_some',
              transp_other _ _ _ (fun (hh : c = n1) => (hSelf n1).2 (hh ▸ hv))
                (fun (hh : c = n2) => hB (hh ▸ hv))]
        · rw [Function.update_noteq hxc]
          by_cases hxd : x = n1
          · rw [hxd]
            rw [Function.update_same, transp_fst]
            cases hv : s.right n2 with
            | none => rfl
            | some c =>
              rw [Option.map_some',
                transp_other _ _ _ (fun (hh : c = n1) => hD (hh ▸ hv))
                  (fun (hh : c = n2) => (hSelf n2).2 (hh ▸ hv))]
          · rw [Function.update_noteq hxd, Function.update_noteq hxb,
              transp_other _ _ _ hxd hxc]
            cases hv : s.right x with
            | none => rfl
            | some y =>
              rw [Option.map_some', transp_other _ _ _
                (fun (hh : y = n1) => hxb (Option.some.inj ((hR n1 x (hh ▸ hv)).symm.trans hp1)))
                (fun (hh : y = n2) => hri2 x (hh ▸ hv))]
    · -- both right children: p1 and p2 layers present
      have hR1 : s.right p1 = some n1 := hq1.resolve_left hL1
      have hR2 : s.right p2 = some n2 := hq2.resolve_left hL2
      have hp1p2 : p1 ≠ p2 := by
        intro hh
        rw [hh, hR2] at hR1
        exact hne (Option.some.inj hR1).symm
      simp only [hbSwapGeneral, hp1, hp2, decide_eq_true_eq, hL1, hL2, eq_self_iff_true,
        if_true, if_false, setParentOf_right, Function.update_noteq hn1p1,
        Function.update_noteq hn1p2, Function.update_noteq hn2p1, Function.update_noteq hn2p2]
      by_cases hxa : x = p2
      · subst hxa
        rw [Function.update_same, transp_other _ _ _ hp2f.1 hp2f.2, hR2, Option.map_some',
          transp_snd]
      · rw [Function.update_noteq hxa]
        by_cases hxb : x = p1
        · subst hxb
          rw [Function.update_same, transp_other _ _ _ hp1f.1 hp1f.2, hR1, Option.map_some',
            transp_fst]
        · rw [Function.update_noteq hxb]
          by_cases hxc : x = n2
          · rw [hxc]
            rw [Function.update_same, transp_snd]
            cases hv : s.right n1 with
            | none => rfl
            | some c =>
              rw [Option.map_some',
                transp_other _ _ _ (fun (hh : c = n1) => (hSelf n1).2 (hh ▸ hv))
                  (fun (hh : c = n2) => hB (hh ▸ hv))]
          · rw [Function.update_noteq hxc]
            by_cases hxd : x = n1
            · rw [hxd]
              rw [Function.update_same, transp_fst]
              cases hv : s.right n2 with
              | none => rfl
              | some c =>
                rw [Option.map_some',
                  transp_other _ _ _ (fun (hh : c = n1) => hD (hh ▸ hv))
                    (fun (hh : c = n2) => (hSelf n2).2 (hh ▸ hv))]
            · rw [Function.update_noteq hxd, Function.update_noteq hxa,
                Function.update_noteq hxb, transp_other _ _ _ hxd hxc]
              cases hv : s.right x with
              | none => rfl
              | some y =>
                rw [Option.map_some', transp_other _ _ _
                  (fun (hh : y = n1) => hxb (Option.some.inj ((hR n1 x (hh ▸ hv)).symm.trans hp1)))
                  (fun (hh : y = n2) => hxa (Option.some.inj ((hR n2 x (hh ▸ hv)).symm.trans hp2)))]

theorem swapGeneral_parent {α : Type} [DecidableEq α] (s : HBHeap α) (n1 n2 : α)
    (hwf : HBWf s) (hne : n1 ≠ n2) (h1 : s.nodes n1 = true) (h2 : s.nodes n2 = true)
    (hA : s.left n1 ≠ some n2) (hB : s.right n1 ≠ some n2)
    (hC : s.left n2 ≠ some n1) (hD : s.right n2 ≠ some n1) (x : α) :
    (hbSwapGeneral s n1 n2).parent x = (s.parent (transp n1 n2 x)).map (transp n1 n2) := by
  obtain ⟨hL, hR, hP, hSl, hSelf, hRoot, hRootP⟩ := hwf
  rcases hp1 : s.parent n1 with _ | p1 <;> rcases hp2 : s.parent n2 with _ | p2
  · have e1 := hRoot n1 hp1 h1
    have e2 := hRoot n2 hp2 h2
    rw [e1] at e2
    exact absurd (Option.some.inj e2) hne
  · -- parent1 = none, parent2 = some p2
    have hq2 := hP n2 p2 hp2
    have hp2f : p2 ≠ n1 ∧ p2 ≠ n2 := by
      constructor
      · intro hh; rw [hh] at hq2
        rcases hq2 with hq | hq
        · exact hA hq
        · exact hB hq
      · intro hh; rw [hh] at hq2
        rcases hq2 with hq | hq
        · exact (hSelf n2).1 hq
        · exact (hSelf n2).2 hq
    have hn1p2 : n1 ≠ p2 := Ne.symm hp2f.1
    have hn2p2 : n2 ≠ p2 := Ne.symm hp2f.2
    by_cases hL2 : s.left p2 = some n2 <;>
      simp only [hbSwapGeneral, hp1, hp2, decide_eq_true_eq, hL2, eq_self_iff_true,
        if_true, if_false, setParentOf_parent, setParentOf_left, setParentOf_right,
        Function.update_noteq hn1p2, Function.update_noteq hn2p2] <;>
    · by_cases hx1 : x = n1
      · rw [hx1, Function.update_same, transp_fst, hp2, Option.map_some',
          transp_other _ _ _ hp2f.1 hp2f.2]
      · rw [Function.update_noteq hx1]
        by_cases hx2 : x = n2
        · rw [hx2, Function.update_same, transp_snd, hp1, Option.map_none']
        · rw [Function.update_noteq hx2, transp_other _ _ _ hx1 hx2]
          simp only [setParentOf_parent]
          by_cases hc1 : s.right n1 = some x
          · rw [if_pos hc1, hR x n1 hc1, Option.map_some', transp_fst]
          · rw [if_neg hc1]
            by_cases hc2 : s.left n1 = some x
            · rw [if_pos hc2, hL x n1 hc2, Option.map_some', transp_fst]
            · rw [if_neg hc2]
              by_cases hc3 : s.right n2 = some x
              · rw [if_pos hc3, hR x n2 hc3, Option.map_some', transp_snd]
              · rw [if_neg hc3]
                by_cases hc4 : s.left n2 = some x
                · rw [if_pos hc4, hL x n2 hc4, Option.map_some', transp_snd]
                · rw [if_neg hc4]
                  cases hv : s.parent x with
                  | none => rfl
                  | some y =>
                    rw [Option.map_some', transp_other _ _ _
                      (fun (hh : y = n1) => by
                        rcases hP x n1 (hh ▸ hv) with hq | hq
                        exacts [hc2 hq, hc1 hq])
                      (fun (hh : y = n2) => by
                        rcases hP x n2 (hh ▸ hv) with hq | hq
                        exacts [hc4 hq, hc3 hq])]
  · -- parent1 = some p1, parent2 = none
    have hq1 := hP n1 p1 hp1
    have hp1f : p1 ≠ n1 ∧ p1 ≠ n2 := by
      constructor
      · intro hh; rw [hh] at hq1
        rcases hq1 with hq | hq
        · exact (hSelf n1).1 hq
        · exact (hSelf n1).2 hq
      · intro hh; rw [hh] at hq1
        rcases hq1 with hq | hq
        · exact hC hq
        · exact hD hq
    have hn1p1 : n1 ≠ p1 := Ne.symm hp1f.1
    have hn2p1 : n2 ≠ p1 := Ne.symm hp1f.2
    by_cases hL1 : s.left p1 = some n1 <;>
      simp only [hbSwapGeneral, hp1, hp2, decide_eq_true_eq, hL1, eq_self_iff_true,
        if_true, if_false, setParentOf_parent, setParentOf_left, setParentOf_right,
        Function.update_noteq hn1p1, Function.update_noteq hn2p1] <;>
    · by_cases hx1 : x = n1
      · rw [hx1, Function.update_same, transp_fst, hp2, Option.map_none']
      · rw [Function.update_noteq hx1]
        by_cases hx2 : x = n2
        · rw [hx2, Function.update_same, transp_snd, hp1, Option.map_some',
            transp_other _ _ _ hp1f.1 hp1f.2]
        · rw [Function.update_noteq hx2, transp_other _ _ _ hx1 hx2]
          simp only [setParentOf_parent]
          by_cases hc1 : s.right n1 = some x
          · rw [if_pos hc1, hR x n1 hc1, Option.map_some', transp_fst]
          · rw [if_neg hc1]
            by_cases hc2 : s.left n1 = some x
            · rw [if_pos hc2, hL x n1 hc2, Option.map_some', transp_fst]
            · rw [if_neg hc2]
              by_cases hc3 : s.right n2 = some x
              · rw [if_pos hc3, hR x n2 hc3, Option.map_some', transp_snd]
              · rw [if_neg hc3]
                by_cases hc4 : s.left n2 = some x
                · rw [if_pos hc4, hL x n2 hc4, Option.map_some', transp_snd]
                · rw [if_neg hc4]
                  cases hv : s.parent x with
                  | none => rfl
                  | some y =>
                    rw [Option.map_some', transp_other _ _ _
                      (fun (hh : y = n1) => by
                        rcases hP x n1 (hh ▸ hv) with hq | hq
                        exacts [hc2 hq, hc1 hq])
                      (fun (hh : y = n2) => by
                        rcases hP x n2 (hh ▸ hv) with hq | hq
                        exacts [hc4 hq, hc3 hq])]
  · -- parent1 = some p1, parent2 = some p2
    have hq1 := hP n1 p1 hp1
    have hq2 := hP n2 p2 hp2
    have hp1f : p1 ≠ n1 ∧ p1 ≠ n2 := by
      constructor
      · intro hh; rw [hh] at hq1
        rcases hq1 with hq | hq
        · exact (hSelf n1).1 hq
        · exact (hSelf n1).2 hq
      · intro hh; rw [hh] at hq1
        rcases hq1 with hq | hq
        · exact hC hq
        · exact hD hq
    have hp2f : p2 ≠ n1 ∧ p2 ≠ n2 := by
      constructor
      · intro hh; rw [hh] at hq2
        rcases hq2 with hq | hq
        · exact hA hq
        · exact hB hq
      · intro hh; rw [hh] at hq2
        rcases hq2 with hq | hq
        · exact (hSelf n2).1 hq
        · exact (hSelf n2).2 hq
    have hn1p1 : n1 ≠ p1 := Ne.symm hp1f.1
    have hn2p1 : n2 ≠ p1 := Ne.symm hp1f.2
    have hn1p2 : n1 ≠ p2 := Ne.symm hp2f.1
    have hn2p2 : n2 ≠ p2 := Ne.symm hp2f.2
    by_cases hL1 : s.left p1 = some n1 <;> by_cases hL2 : s.left p2 = some n2 <;>
      simp only [hbSwapGeneral, hp1, hp2, decide_eq_true_eq, hL1, hL2, eq_self_iff_true,
        if_true, if_false, setParentOf_parent, setParentOf_left, setParentOf_right,
        Function.update_noteq hn1p1, Function.update_noteq hn1p2,
        Function.update_noteq hn2p1, Function.update_noteq hn2p2] <;>
    · by_cases hx1 : x = n1
      · rw [hx1, Function.update_same, transp_fst, hp2, Option.map_some',
          transp_other _ _ _ hp2f.1 hp2f.2]
      · rw [Function.update_noteq hx1]
        by_cases hx2 : x = n2
        · rw [hx2, Function.update_same, transp_snd, hp1, Option.map_some',
            transp_other _ _ _ hp1f.1 hp1f.2]
        · rw [Function.update_noteq hx2, transp_other _ _ _ hx1 hx2]
          simp only [setParentOf_parent]
          by_cases hc1 : s.right n1 = some x
          · rw [if_pos hc1, hR x n1 hc1, Option.map_some', transp_fst]
          · rw [if_neg hc1]
            by_cases hc2 : s.left n1 = some x
            · rw [if_pos hc2, hL x n1 hc2, Option.map_some', transp_fst]
            · rw [if_neg hc2]
              by_cases hc3 : s.right n2 = some x
              · rw [if_pos hc3, hR x n2 hc3, Option.map_some', transp_snd]
              · rw [if_neg hc3]
                by_cases hc4 : s.left n2 = some x
                · rw [if_pos hc4, hL x n2 hc4, Option.map_some', transp_snd]
                · rw [if_neg hc4]
                  cases hv : s.parent x with
                  | none => rfl
                  | some y =>
                    rw [Option.map_some', transp_other _ _ _
                      (fun (hh : y = n1) => by
                        rcases hP x n1 (hh ▸ hv) with hq | hq
                        exacts [hc2 hq, hc1 hq])
                      (fun (hh : y = n2) => by
                        rcases hP x n2 (hh ▸ hv) with hq | hq
                        exacts [hc4 hq, hc3 hq])]

theorem swapGeneral_eq_relabel {α : Type} [DecidableEq α] (s : HBHeap α) (n1 n2 : α)
    (hwf : HBWf s) (hne : n1 ≠ n2) (h1 : s.nodes n1 = true) (h2 : s.nodes n2 = true)
    (hA : s.left n1 ≠ some n2) (hB : s.right n1 ≠ some n2)
    (hC : s.left n2 ≠ some n1) (hD : s.right n2 ≠ some n1) :
    hbSwapGeneral s n1 n2 = relabel n1 n2 s :=
  HBHeap.ext'
    (swapGeneral_root s n1 n2 hwf hne h1 h2)
    (fun x => swapGeneral_nodes s n1 n2 hwf hne h1 h2 x)
    (fun x => swapGeneral_parent s n1 n2 hwf hne h1 h2 hA hB hC hD x)
    (fun x => swapGeneral_left s n1 n2 hwf hne h1 h2 hA hB hC hD x)
    (fun x => swapGeneral_right s n1 n2 hwf hne h1 h2 hA hB hC hD x)

/-- C6 (corrected): when the two swapped nodes are in general position (present
in the node map, distinct, and neither a direct child of the other),
`swapNodes` succeeds and produces exactly the relabelling of the tree along the
transposition of the two names, so applying it twice restores the original tree
exactly.  When one node is a direct child of the other this fails: the source
re-tests `node1->getLeftChild() == node2` after detaching node2, so a left
child comes back as a right child (see the counterexample). -/
theorem C6_swap_involution_amended {α : Type} [DecidableEq α] (s : HBHeap α) (n1 n2 : α)
    (hwf : HBWf s) (hne : n1 ≠ n2)
    (h1 : s.nodes n1 = true) (h2 : s.nodes n2 = true)
    (hA : s.left n1 ≠ some n2) (hB : s.right n1 ≠ some n2)
    (hC : s.left n2 ≠ some n1) (hD : s.right n2 ≠ some n1) :
    hbSwapNodes s n1 n2 = (true, relabel n1 n2 s) ∧
    hbSwapNodes (hbSwapNodes s n1 n2).2 n1 n2 = (true, s) := by
  have g1 : ¬(s.nodes n1 = false ∨ s.nodes n2 = false) := by
    rw [h1, h2]
    rintro (hh | hh) <;> cases hh
  have g2 : ¬(s.left n1 = some n2 ∨ s.right n1 = some n2) := by
    rintro (hh | hh)
    exacts [hA hh, hB hh]
  have g3 : ¬(s.left n2 = some n1 ∨ s.right n2 = some n1) := by
    rintro (hh | hh)
    exacts [hC hh, hD hh]
  have hstep1 : hbSwapNodes s n1 n2 = (true, relabel n1 n2 s) := by
    rw [hbSwapNodes, if_neg g1, if_neg g2, if_neg g3,
      swapGeneral_eq_relabel s n1 n2 hwf hne h1 h2 hA hB hC hD]
  refine ⟨hstep1, ?_⟩
  rw [hstep1]
  show hbSwapNodes (relabel n1 n2 s) n1 n2 = (true, s)
  have hwf' := relabel_wf n1 n2 s hwf
  have h1' : (relabel n1 n2 s).nodes n1 = true := by
    show s.nodes (transp n1 n2 n1) = true
    rw [transp_fst]
    exact h2
  have h2' : (relabel n1 n2 s).nodes n2 = true := by
    show s.nodes (transp n1 n2 n2) = true
    rw [transp_snd]
    exact h1
  have hA' : (relabel n1 n2 s).left n1 ≠ some n2 := by
    show (s.left (transp n1 n2 n1)).map (transp n1 n2) ≠ some n2
    rw [transp_fst]
    intro hh
    rw [map_transp_eq_some, transp_snd] at hh
    exact hC hh
  have hB' : (relabel n1 n2 s).right n1 ≠ some n2 := by
    show (s.right (transp n1 n2 n1)).map (transp n1 n2) ≠ some n2
    rw [transp_fst]
    intro hh
    rw [map_transp_eq_some, transp_snd] at hh
    exact hD hh
  have hC' : (relabel n1 n2 s).left n2 ≠ some n1 := by
    show (s.left (transp n1 n2 n2)).map (transp n1 n2) ≠ some n1
    rw [transp_snd]
    intro hh
    rw [map_transp_eq_some, transp_fst] at hh
    exact hA hh
  have hD' : (relabel n1 n2 s).right n2 ≠ some n1 := by
    show (s.right (transp n1 n2 n2)).map (transp n1 n2) ≠ some n1
    rw [transp_snd]
    intro hh
    rw [map_transp_eq_some, transp_fst] at hh
    exact hB hh
  have g1' : ¬((relabel n1 n2 s).nodes n1 = false ∨ (relabel n1 n2 s).nodes n2 = false) := by
    rw [h1', h2']
    rintro (hh | hh) <;> cases hh
  have g2' : ¬((relabel n1 n2 s).left n1 = some n2 ∨ (relabel n1 n2 s).right n1 = some n2) := by
    rintro (hh | hh)
    exacts [hA' hh, hB' hh]
  have g3' : ¬((relabel n1 n2 s).left n2 = some n1 ∨ (relabel n1 n2 s).right n2 = some n1) := by
    rintro (hh | hh)
    exacts [hC' hh, hD' hh]
  rw [hbSwapNodes, if_neg g1', if_neg g2', if_neg g3',
    swapGeneral_eq_relabel _ n1 n2 hwf' hne h1' h2' hA' hB' hC' hD', relabel_relabel]

theorem C6_swap_involution_amended_witness :
    HBWf exHeapFin3 ∧ (1 : Fin 3) ≠ 2 ∧
    (hbSwapNodes exHeapFin3 1 2 = (true, relabel 1 2 exHeapFin3) ∧
      hbSwapNodes (hbSwapNodes exHeapFin3 1 2).2 1 2 = (true, exHeapFin3)) :=
  ⟨by unfold HBWf; decide, by decide,
    C6_swap_involution_amended exHeapFin3 1 2 (by unfold HBWf; decide) (by decide) (by decide)
      (by decide) (by decide) (by decide) (by decide) (by decide)⟩

theorem ratTrunc_intCast (k : Int) : ratTrunc (k : ℚ) = k := by
  unfold ratTrunc
  split_ifs with h
  · exact Int.floor_intCast k
  · exact Int.ceil_intCast k

theorem centerSelfSym_lookup_other (s : ASFState) (n m : String) (hnm : ¬(m = n)) :
    List.lookup m (centerSelfSym s n).modules = List.lookup m s.modules := by
  rw [centerSelfSym.eq_def]
  cases hn : List.lookup n s.modules with
  | none => rfl
  | some mm =>
    by_cases hst : s.symmetryGroup.symType = SymmetryType.vertical <;>
      simp only [hst, if_true, if_false, eq_self_iff_true, lookup_updateMod, hnm] <;>
      cases List.lookup m s.modules <;> rfl

theorem foldl_centerSelfSym_lookup (names : List String) :
    ∀ (s : ASFState) (m : String), names.contains m = false →
      List.lookup m (names.foldl centerSelfSym s).modules = List.lookup m s.modules := by
  induction names with
  | nil => intro s m _; rfl
  | cons n rest ih =>
    intro s m hm
    simp only [List.contains_cons, Bool.or_eq_false_iff, beq_eq_false_iff_ne] at hm
    rw [List.foldl_cons, ih _ m hm.2, centerSelfSym_lookup_other s n m hm.1]

theorem mirrorPair_symmetryGroup (s : ASFState) (pr : String × String) :
    (mirrorPair s pr).symmetryGroup = s.symmetryGroup := by
  rw [mirrorPair.eq_def]
  cases List.lookup pr.1 s.modules with
  | none => rfl
  | some m1 =>
    cases List.lookup pr.2 s.modules with
    | none => rfl
    | some m2 => split_ifs <;> rfl

theorem C1_counterexample :
    (asfPack 10 exASFLocked).1 = true ∧
    (List.lookup "A" (asfPack 10 exASFLocked).2.modules).map centerX = some (3 / 2 : ℚ) ∧
    (List.lookup "B" (asfPack 10 exASFLocked).2.modules).map centerX = some 2 ∧
    (asfPack 10 exASFLocked).2.symmetryAxisPosition = 2 ∧
    ¬((3 / 2 : ℚ) + 2 = 2 * 2) := by
  refine ⟨by with_unfolding_all rfl, by with_unfolding_all rfl, by with_unfolding_all rfl,
    by with_unfolding_all rfl, by with_unfolding_all decide⟩

theorem mirrorPair_axis (s : ASFState) (pr : String × String) :
    (mirrorPair s pr).symmetryAxisPosition = s.symmetryAxisPosition := by
  rw [mirrorPair.eq_def]
  cases List.lookup pr.1 s.modules with
  | none => rfl
  | some m1 =>
    cases List.lookup pr.2 s.modules with
    | none => rfl
    | some m2 => split_ifs <;> rfl

theorem mirrorPair_lookup_other (s : ASFState) (pr : String × String) (m : String)
    (h1 : m ≠ pr.1) (h2 : m ≠ pr.2) :
    List.lookup m (mirrorPair s pr).modules = List.lookup m s.modules := by
  rw [mirrorPair.eq_def]
  cases hl1 : List.lookup pr.1 s.modules with
  | none => rfl
  | some m1 =>
    cases hl2 : List.lookup pr.2 s.modules with
    | none => rfl
    | some m2 =>
      split_ifs <;>
        first
        | rfl
        | (simp only [lookup_updateMod, h1, h2, if_false, ite_false]
           cases List.lookup m s.modules <;> rfl)

theorem foldl_mirrorPair_group (ps : List (String × String)) :
    ∀ s : ASFState, (ps.foldl mirrorPair s).symmetryGroup = s.symmetryGroup := by
  induction ps with
  | nil => intro s; rfl
  | cons p rest ih =>
    intro s
    rw [List.foldl_cons, ih, mirrorPair_symmetryGroup]

theorem foldl_mirrorPair_axis (ps : List (String × String)) :
    ∀ s : ASFState, (ps.foldl mirrorPair s).symmetryAxisPosition = s.symmetryAxisPosition := by
  induction ps with
  | nil => intro s; rfl
  | cons p rest ih =>
    intro s
    rw [List.foldl_cons, ih, mirrorPair_axis]

theorem foldl_mirrorPair_lookup (ps : List (String × String)) :
    ∀ (s : ASFState) (m : String), (∀ p ∈ ps, m ≠ p.1 ∧ m ≠ p.2) →
      List.lookup m (ps.foldl mirrorPair s).modules = List.lookup m s.modules := by
  induction ps with
  | nil => intro s m _; rfl
  | cons p rest ih =>
    intro s m hd
    rw [List.foldl_cons, ih _ m (fun p2 hp2 => hd p2 (List.mem_cons_of_mem _ hp2)),
      mirrorPair_lookup_other s p m (hd p (List.mem_cons_self _ _)).1
        (hd p (List.mem_cons_self _ _)).2]

theorem foldrNames_append (l1 l2 : List (String × String)) :
    (l1 ++ l2).foldr (fun p acc => p.1 :: p.2 :: acc) [] =
      l1.foldr (fun p acc => p.1 :: p.2 :: acc) [] ++
        l2.foldr (fun p acc => p.1 :: p.2 :: acc) [] := by
  induction l1 with
  | nil => rfl
  | cons p rest ih => simp [List.foldr_cons, ih]

theorem mem_foldrNames (l : List (String × String)) (p : String × String) (hp : p ∈ l) :
    p.1 ∈ l.foldr (fun q acc => q.1 :: q.2 :: acc) [] ∧
    p.2 ∈ l.foldr (fun q acc => q.1 :: q.2 :: acc) [] := by
  induction l with
  | nil => exact absurd hp (by simp)
  | cons q rest ih =>
    rcases List.mem_cons.mp hp with h | h
    · subst h
      simp
    · have hm := ih h
      simp [hm.1, hm.2]

theorem mirrorPair_mirror_fst (t : ASFState) (a b : String) (mr mq : PModule) (k : Int)
    (hrep : getRepresentative t.symmetryGroup a = a)
    (hmr : List.lookup a t.modules = some mr)
    (hmq : List.lookup b t.modules = some mq)
    (hexact : (if t.symmetryGroup.symType = SymmetryType.vertical
        then 2 * t.symmetryAxisPosition - centerX mr - (mq.getWidth : ℚ) / 2
        else 2 * t.symmetryAxisPosition - centerY mr - (mq.getHeight : ℚ) / 2) = (k : ℚ)) :
    mirrorPair t (a, b) = { t with modules := (updateMod t.modules b
      (fun m => if t.symmetryGroup.symType = SymmetryType.vertical
        then m.setPosition k mr.y else m.setPosition mr.x k)) } := by
  by_cases hst : t.symmetryGroup.symType = SymmetryType.vertical
  · rw [if_pos hst] at hexact
    have htr : ratTrunc (2 * t.symmetryAxisPosition - ((mr.x : ℚ) + (mr.getWidth : ℚ) / 2) -
        (mq.getWidth : ℚ) / 2) = k := by
      simp only [centerX] at hexact
      rw [hexact, ratTrunc_intCast]
    rw [mirrorPair.eq_def]
    simp only [hmr, hmq, hrep, eq_self_iff_true, if_true, ite_true, hst, htr]
  · rw [if_neg hst] at hexact
    have htr : ratTrunc (2 * t.symmetryAxisPosition - ((mr.y : ℚ) + (mr.getHeight : ℚ) / 2) -
        (mq.getHeight : ℚ) / 2) = k := by
      simp only [centerY] at hexact
      rw [hexact, ratTrunc_intCast]
    rw [mirrorPair.eq_def]
    simp only [hmr, hmq, hrep, eq_self_iff_true, if_true, ite_true, hst, htr,
      if_false, ite_false]

theorem mirrorPair_mirror_snd (t : ASFState) (a b : String) (mr mq : PModule) (k : Int)
    (hab : a ≠ b)
    (hrep : getRepresentative t.symmetryGroup a = b)
    (hmr : List.lookup b t.modules = some mr)
    (hmq : List.lookup a t.modules = some mq)
    (hexact : (if t.symmetryGroup.symType = SymmetryType.vertical
        then 2 * t.symmetryAxisPosition - centerX mr - (mq.getWidth : ℚ) / 2
        else 2 * t.symmetryAxisPosition - centerY mr - (mq.getHeight : ℚ) / 2) = (k : ℚ)) :
    mirrorPair t (a, b) = { t with modules := (updateMod t.modules a
      (fun m => if t.symmetryGroup.symType = SymmetryType.vertical
        then m.setPosition k mr.y else m.setPosition mr.x k)) } := by
  by_cases hst : t.symmetryGroup.symType = SymmetryType.vertical
  · rw [if_pos hst] at hexact
    have htr : ratTrunc (2 * t.symmetryAxisPosition - ((mr.x : ℚ) + (mr.getWidth : ℚ) / 2) -
        (mq.getWidth : ℚ) / 2) = k := by
      simp only [centerX] at hexact
      rw [hexact, ratTrunc_intCast]
    rw [mirrorPair.eq_def]
    simp only [hmq, hmr, hrep, Ne.symm hab, eq_self_iff_true, if_true, ite_true, hst, htr,
      if_false, ite_false]
  · rw [if_neg hst] at hexact
    have htr : ratTrunc (2 * t.symmetryAxisPosition - ((mr.y : ℚ) + (mr.getHeight : ℚ) / 2) -
        (mq.getHeight : ℚ) / 2) = k := by
      simp only [centerY] at hexact
      rw [hexact, ratTrunc_intCast]
    rw [mirrorPair.eq_def]
    simp only [hmq, hmr, hrep, Ne.symm hab, eq_self_iff_true, if_true, ite_true, hst, htr,
      if_false, ite_false]

/-- C1 (corrected): for any symmetry pair (a, b) of a well-formed group —
however many pairs the group has — with representative r and mirrored module q,
the mirroring pass of `calculateSymmetricModulePositions` realises the claimed
invariant exactly whenever the reflected edge coordinate is an exact
non-negative integer: the two centers sum to twice the axis position, the
shared coordinate is copied from the representative, the representative's
record is untouched, and the mirrored module's rotation flag is preserved — so
a pair whose flags were equal (as the lifecycle guarantees, `rotateModule`
rotating both halves together) still has equal flags.  Without the exactness
hypothesis the center equation fails, because the edge coordinate is truncated
to `int` and clamped at zero (see the counterexample). -/
theorem C1_mirror_amended (s : ASFState) (a b q r : String) (mr mq : PModule) (k : Int)
    (hwf : groupWellFormed s.symmetryGroup = true)
    (hmem : (a, b) ∈ s.symmetryGroup.symmetryPairs)
    (hqr : (r = a ∧ q = b) ∨ (r = b ∧ q = a))
    (hrep : getRepresentative s.symmetryGroup a = r)
    (hmr : List.lookup r s.modules = some mr)
    (hmq : List.lookup q s.modules = some mq)
    (hflag : mq.isRotated = mr.isRotated)
    (hk : 0 ≤ k) (hry : 0 ≤ mr.y) (hrx : 0 ≤ mr.x)
    (hexact : (if s.symmetryGroup.symType = SymmetryType.vertical
        then 2 * s.symmetryAxisPosition - centerX mr - (mq.getWidth : ℚ) / 2
        else 2 * s.symmetryAxisPosition - centerY mr - (mq.getHeight : ℚ) / 2) = (k : ℚ)) :
    ∃ mq', List.lookup q (calculateSymmetricModulePositions s).modules = some mq' ∧
      List.lookup r (calculateSymmetricModulePositions s).modules = some mr ∧
      mq'.isRotated = mq.isRotated ∧ mq'.isRotated = mr.isRotated ∧
      (if s.symmetryGroup.symType = SymmetryType.vertical
        then centerX mq' + centerX mr = 2 * s.symmetryAxisPosition ∧ mq'.y = mr.y
        else centerY mq' + centerY mr = 2 * s.symmetryAxisPosition ∧ mq'.x = mr.x) := by
  have hab : a ≠ b := pair_mem_ne s.symmetryGroup hwf a b hmem
  obtain ⟨pre, post, hsplit⟩ := List.append_of_mem hmem
  have hnd : (pairNames s.symmetryGroup ++ s.symmetryGroup.selfSymmetric).Nodup :=
    of_decide_eq_true hwf
  have hpn : pairNames s.symmetryGroup =
      pre.foldr (fun p acc => p.1 :: p.2 :: acc) [] ++
        a :: b :: post.foldr (fun p acc => p.1 :: p.2 :: acc) [] := by
    simp only [pairNames]
    rw [hsplit, foldrNames_append]
    rfl
  rw [hpn] at hnd
  obtain ⟨hndL, hndS, hdisjS⟩ := List.nodup_append.mp hnd
  have haS : a ∉ s.symmetryGroup.selfSymmetric := fun hc => hdisjS (by simp) hc
  have hbS : b ∉ s.symmetryGroup.selfSymmetric := fun hc => hdisjS (by simp) hc
  obtain ⟨hndN1, hndM, hdisjN⟩ := List.nodup_append.mp hndL
  have haN1 : a ∉ pre.foldr (fun p acc => p.1 :: p.2 :: acc) [] :=
    fun hc => hdisjN hc (by simp)
  have hbN1 : b ∉ pre.foldr (fun p acc => p.1 :: p.2 :: acc) [] :=
    fun hc => hdisjN hc (by simp)
  obtain ⟨haM, hndM2⟩ := List.nodup_cons.mp hndM
  have haN2 : a ∉ post.foldr (fun p acc => p.1 :: p.2 :: acc) [] :=
    fun hc => haM (by simp [hc])
  have hbN2 : b ∉ post.foldr (fun p acc => p.1 :: p.2 :: acc) [] :=
    (List.nodup_cons.mp hndM2).1
  have hpreA : ∀ p ∈ pre, a ≠ p.1 ∧ a ≠ p.2 := by
    intro p hp
    have hm := mem_foldrNames pre p hp
    exact ⟨fun hc => haN1 (by rw [hc]; exact hm.1), fun hc => haN1 (by rw [hc]; exact hm.2)⟩
  have hpreB : ∀ p ∈ pre, b ≠ p.1 ∧ b ≠ p.2 := by
    intro p hp
    have hm := mem_foldrNames pre p hp
    exact ⟨fun hc => hbN1 (by rw [hc]; exact hm.1), fun hc => hbN1 (by rw [hc]; exact hm.2)⟩
  have hpostA : ∀ p ∈ post, a ≠ p.1 ∧ a ≠ p.2 := by
    intro p hp
    have hm := mem_foldrNames post p hp
    exact ⟨fun hc => haN2 (by rw [hc]; exact hm.1), fun hc => haN2 (by rw [hc]; exact hm.2)⟩
  have hpostB : ∀ p ∈ post, b ≠ p.1 ∧ b ≠ p.2 := by
    intro p hp
    have hm := mem_foldrNames post p hp
    exact ⟨fun hc => hbN2 (by rw [hc]; exact hm.1), fun hc => hbN2 (by rw [hc]; exact hm.2)⟩
  have hcontA : s.symmetryGroup.selfSymmetric.contains a = false := by simpa using haS
  have hcontB : s.symmetryGroup.selfSymmetric.contains b = false := by simpa using hbS
  have hcal : calculateSymmetricModulePositions s =
      s.symmetryGroup.selfSymmetric.foldl centerSelfSym
        (s.symmetryGroup.symmetryPairs.foldl mirrorPair s) := by
    simp only [calculateSymmetricModulePositions, foldl_mirrorPair_group]
  rcases hqr with ⟨hr, hq⟩ | ⟨hr, hq⟩
  · -- the representative is the first pair component; b is mirrored
    rw [hr] at hrep hmr
    rw [hq] at hmq
    rw [hr, hq]
    have hrep' : getRepresentative (pre.foldl mirrorPair s).symmetryGroup a = a := by
      rw [foldl_mirrorPair_group]
      exact hrep
    have hmr' : List.lookup a (pre.foldl mirrorPair s).modules = some mr := by
      rw [foldl_mirrorPair_lookup pre s a hpreA]
      exact hmr
    have hmq' : List.lookup b (pre.foldl mirrorPair s).modules = some mq := by
      rw [foldl_mirrorPair_lookup pre s b hpreB]
      exact hmq
    have hexact' : (if (pre.foldl mirrorPair s).symmetryGroup.symType = SymmetryType.vertical
        then 2 * (pre.foldl mirrorPair s).symmetryAxisPosition - centerX mr -
          (mq.getWidth : ℚ) / 2
        else 2 * (pre.foldl mirrorPair s).symmetryAxisPosition - centerY mr -
          (mq.getHeight : ℚ) / 2) = (k : ℚ) := by
      rw [foldl_mirrorPair_group, foldl_mirrorPair_axis]
      exact hexact
    have hstep := mirrorPair_mirror_fst (pre.foldl mirrorPair s) a b mr mq k
      hrep' hmr' hmq' hexact'
    rw [hcal, hsplit, List.foldl_append, List.foldl_cons, hstep]
    simp only [foldl_mirrorPair_group]
    refine ⟨(if s.symmetryGroup.symType = SymmetryType.vertical
        then mq.setPosition k mr.y else mq.setPosition mr.x k), ?_, ?_, ?_, ?_, ?_⟩
    · rw [foldl_centerSelfSym_lookup _ _ _ hcontB, foldl_mirrorPair_lookup post _ b hpostB]
      simp only [lookup_updateMod, hmq', Option.map_some', eq_self_iff_true, if_true, ite_true]
    · rw [foldl_centerSelfSym_lookup _ _ _ hcontA, foldl_mirrorPair_lookup post _ a hpostA]
      simp only [lookup_updateMod, hmr', Option.map_some', hab, if_false, ite_false]
    · by_cases hst : s.symmetryGroup.symType = SymmetryType.vertical
      · rw [if_pos hst]
        rfl
      · rw [if_neg hst]
        rfl
    · by_cases hst : s.symmetryGroup.symType = SymmetryType.vertical
      · rw [if_pos hst]
        exact hflag
      · rw [if_neg hst]
        exact hflag
    · by_cases hst : s.symmetryGroup.symType = SymmetryType.vertical
      · rw [if_pos hst, if_pos hst]
        constructor
        · rw [if_pos hst] at hexact
          simp only [centerX, PModule.setPosition, PModule.getWidth] at hexact ⊢
          rw [max_eq_right hk]
          push_cast at hexact ⊢
          linarith [hexact]
        · show max 0 mr.y = mr.y
          exact max_eq_right hry
      · rw [if_neg hst, if_neg hst]
        constructor
        · rw [if_neg hst] at hexact
          simp only [centerY, PModule.setPosition, PModule.getHeight] at hexact ⊢
          rw [max_eq_right hk]
          push_cast at hexact ⊢
          linarith [hexact]
        · show max 0 mr.x = mr.x
          exact max_eq_right hrx
  · -- the representative is the second pair component; a is mirrored
    rw [hr] at hrep hmr
    rw [hq] at hmq
    rw [hr, hq]
    have hrep' : getRepresentative (pre.foldl mirrorPair s).symmetryGroup a = b := by
      rw [foldl_mirrorPair_group]
      exact hrep
    have hmr' : List.lookup b (pre.foldl mirrorPair s).modules = some mr := by
      rw [foldl_mirrorPair_lookup pre s b hpreB]
      exact hmr
    have hmq' : List.lookup a (pre.foldl mirrorPair s).modules = some mq := by
      rw [foldl_mirrorPair_lookup pre s a hpreA]
      exact hmq
    have hexact' : (if (pre.foldl mirrorPair s).symmetryGroup.symType = SymmetryType.vertical
        then 2 * (pre.foldl mirrorPair s).symmetryAxisPosition - centerX mr -
          (mq.getWidth : ℚ) / 2
        else 2 * (pre.foldl mirrorPair s).symmetryAxisPosition - centerY mr -
          (mq.getHeight : ℚ) / 2) = (k : ℚ) := by
      rw [foldl_mirrorPair_group, foldl_mirrorPair_axis]
      exact hexact
    have hstep := mirrorPair_mirror_snd (pre.foldl mirrorPair s) a b mr mq k
      hab hrep' hmr' hmq' hexact'
    rw [hcal, hsplit, List.foldl_append, List.foldl_cons, hstep]
    simp only [foldl_mirrorPair_group]
    refine ⟨(if s.symmetryGroup.symType = SymmetryType.vertical
        then mq.setPosition k mr.y else mq.setPosition mr.x k), ?_, ?_, ?_, ?_, ?_⟩
    · rw [foldl_centerSelfSym_lookup _ _ _ hcontA, foldl_mirrorPair_lookup post _ a hpostA]
      simp only [lookup_updateMod, hmq', Option.map_some', eq_self_iff_true, if_true, ite_true]
    · rw [foldl_centerSelfSym_lookup _ _ _ hcontB, foldl_mirrorPair_lookup post _ b hpostB]
      simp only [lookup_updateMod, hmr', Option.map_some', Ne.symm hab, if_false, ite_false]
    · by_cases hst : s.symmetryGroup.symType = SymmetryType.vertical
      · rw [if_pos hst]
        rfl
      · rw [if_neg hst]
        rfl
    · by_cases hst : s.symmetryGroup.symType = SymmetryType.vertical
      · rw [if_pos hst]
        exact hflag
      · rw [if_neg hst]
        exact hflag
    · by_cases hst : s.symmetryGroup.symType = SymmetryType.vertical
      · rw [if_pos hst, if_pos hst]
        constructor
        · rw [if_pos hst] at hexact
          simp only [centerX, PModule.setPosition, PModule.getWidth] at hexact ⊢
          rw [max_eq_right hk]
          push_cast at hexact ⊢
          linarith [hexact]
        · show max 0 mr.y = mr.y
          exact max_eq_right hry
      · rw [if_neg hst, if_neg hst]
        constructor
        · rw [if_neg hst] at hexact
          simp only [centerY, PModule.setPosition, PModule.getHeight] at hexact ⊢
          rw [max_eq_right hk]
          push_cast at hexact ⊢
          linarith [hexact]
        · show max 0 mr.x = mr.x
          exact max_eq_right hrx

theorem C1_mirror_amended_witness :
    groupWellFormed exASFTwoPairs.symmetryGroup = true ∧
    ("C", "D") ∈ exASFTwoPairs.symmetryGroup.symmetryPairs ∧
    (∃ mq', List.lookup "C" (calculateSymmetricModulePositions exASFTwoPairs).modules =
        some mq' ∧
      List.lookup "D" (calculateSymmetricModulePositions exASFTwoPairs).modules =
        some (mkModule "D" 4 10) ∧
      mq'.isRotated = (mkModule "C" 4 10).isRotated ∧
      mq'.isRotated = (mkModule "D" 4 10).isRotated ∧
      (if exASFTwoPairs.symmetryGroup.symType = SymmetryType.vertical
        then centerX mq' + centerX (mkModule "D" 4 10) =
            2 * exASFTwoPairs.symmetryAxisPosition ∧
          mq'.y = (mkModule "D" 4 10).y
        else centerY mq' + centerY (mkModule "D" 4 10) =
            2 * exASFTwoPairs.symmetryAxisPosition ∧
          mq'.x = (mkModule "D" 4 10).x)) :=
  ⟨by with_unfolding_all decide, by decide,
    C1_mirror_amended exASFTwoPairs "C" "D" "C" "D" (mkModule "D" 4 10) (mkModule "C" 4 10) 0
      (by with_unfolding_all decide) (by decide) (Or.inr ⟨rfl, rfl⟩)
      (by with_unfolding_all decide) (by with_unfolding_all decide)
      (by with_unfolding_all decide) (by decide) (by decide) (by decide) (by decide)
      (by with_unfolding_all decide)⟩
